import Mathlib

/-!
# LLL: the GAP <-> FLINT marshalling layer of `src/LLL.c`

A shallow embedding of the integer views (`fake_mpz_t`), the integer
conversions, the matrix marshalling functions `mat_gap2flint` /
`mat_flint2gap` and the orchestration `FuncLLLReducedGramMatFLINT`.

Modelling conventions.
* The machine word is 64 bits wide.  `Int` (the kernel's signed word) is
  modelled by mathematical integers wrapped with `wrapInt`; `mp_limb_t` by
  naturals reduced with `toLimb`.
* Counts (list lengths, digit counts, the `_mp_size` / `_mp_alloc` fields,
  matrix dimensions) are mathematical integers.
* The host heap is explicit: a large integer object is a bag with a type
  number, a digit count, a current address and digits in memory.
* Host lists are Lean lists; `ELM_LIST` is fallible (reading past the end
  gives `none`).
* Allocation of host integers extends the heap; no collection or compaction
  happens during a conversion.
-/

namespace LLL

/-! ## Machine words -/

/-- Two's complement wrap of a mathematical integer into the signed 64-bit word. -/
def wrapInt (z : Int) : Int := (z + 2 ^ 63) % 2 ^ 64 - 2 ^ 63

/-- Conversion of a signed word to the unsigned limb type `mp_limb_t`. -/
def toLimb (z : Int) : Nat := (z % 2 ^ 64).toNat

/-- Smallest immediate integer of the host (64-bit kernel). -/
def INT_INTOBJ_MIN : Int := -(2 ^ 60)

/-- Largest immediate integer of the host (64-bit kernel). -/
def INT_INTOBJ_MAX : Int := 2 ^ 60 - 1

/-! ## Host objects and the host heap -/

/-- Type numbers of host bags that matter here. -/
inductive TNum
  | T_INTPOS
  | T_INTNEG
  | T_OTHER
  deriving DecidableEq, Repr

/-- A host object reference: an immediate integer or a reference to a bag. -/
inductive Obj
  | intobj (i : Int)
  | bag (id : Nat)
  deriving DecidableEq, Repr

/-- The host heap, as far as integer bags are concerned.  `addr id` is the
current address of the digit storage of bag `id` (in limbs); a compaction
changes `addr` and moves the digits in `mem`. -/
structure Heap where
  tnum : Nat → TNum
  size : Nat → Nat
  addr : Nat → Nat
  mem : Nat → Nat
  nbags : Nat
  top : Nat

/-- Where a limb pointer points. -/
inductive Ptr
  | scratch
  | heap (a : Nat)
  | native (buf : List Nat)
  | wild
  deriving DecidableEq, Repr

/-- The header `__mpz_struct` of the native big-integer library. -/
structure mpz where
  _mp_alloc : Int
  _mp_size : Int
  _mp_d : Ptr
  deriving DecidableEq, Repr

/-- The struct `fake_mpz_t` of the source: a header, the inline limb and
the referenced host object (`none` is the null reference `0`). -/
structure fake_mpz where
  v : mpz
  tmp : Nat
  obj : Option Obj
  deriving DecidableEq, Repr

def IS_INTOBJ : Obj → Bool
  | .intobj _ => true
  | .bag _ => false

/-- The signed word held by an immediate integer. -/
def INT_INTOBJ : Obj → Int
  | .intobj i => i
  | .bag _ => 0

def TNUM_OBJ (h : Heap) : Obj → TNum
  | .intobj _ => .T_OTHER
  | .bag id => h.tnum id

/-- Digit count of a large integer object. -/
def SIZE_INT (h : Heap) : Obj → Nat
  | .intobj _ => 0
  | .bag id => h.size id

/-- Current address of the digit storage of a large integer object. -/
def ADDR_INT (h : Heap) : Obj → Ptr
  | .intobj _ => .wild
  | .bag id => .heap (h.addr id)

/-- Source line 26: `#define IS_INTPOS(obj) (TNUM_OBJ(obj) == T_INTPOS)`. -/
def IS_INTPOS (h : Heap) (obj : Obj) : Bool := TNUM_OBJ h obj == .T_INTPOS

/-! ## The integer view -/

/-- Source lines 56-59: the working pointer is recomputed from the current
address of the object, or points at the inline limb. -/
def UPDATE_FAKEMPZ (h : Heap) (fake : fake_mpz) : fake_mpz :=
  { fake with
    v := { fake.v with
           _mp_d := match fake.obj with
                    | some o => ADDR_INT h o
                    | none => .scratch } }

/-- Source line 53: `(UPDATE_FAKEMPZ(fake), fake->v)`; the updated view is
returned together with its header. -/
def MPZ_FAKEMPZ (h : Heap) (fake : fake_mpz) : fake_mpz × mpz :=
  let fake1 := UPDATE_FAKEMPZ h fake
  (fake1, fake1.v)

/-- Source lines 69-89. -/
def FAKEMPZ_GMPorINTOBJ (h : Heap) (fake : fake_mpz) (op : Obj) : fake_mpz :=
  if IS_INTOBJ op then
    let i := INT_INTOBJ op
    if i ≥ 0 then
      { v := { fake.v with _mp_alloc := 1, _mp_size := if i ≠ 0 then 1 else 0 },
        tmp := toLimb i,
        obj := none }
    else
      { v := { fake.v with _mp_alloc := 1, _mp_size := -1 },
        tmp := toLimb (wrapInt (-i)),
        obj := none }
  else
    { v := { fake.v with
             _mp_alloc := (SIZE_INT h op : Int),
             _mp_size := if IS_INTPOS h op then (SIZE_INT h op : Int)
                         else -(SIZE_INT h op : Int) },
      tmp := fake.tmp,
      obj := some op }

/-! ## Reading limbs and integer values -/

/-- Limb `k` behind a pointer; `scr` is the inline limb of the enclosing
view (`none` when the header is not part of a view).  Reading outside the
storage gives `none`. -/
def load (h : Heap) (scr : Option Nat) : Ptr → Nat → Option Nat
  | .scratch, k => if k = 0 then scr else none
  | .heap a, k => some (h.mem (a + k))
  | .native buf, k => buf.get? k
  | .wild, _ => none

/-- Reads `n` limbs starting at limb `k`, least significant first. -/
def readFrom (h : Heap) (scr : Option Nat) (p : Ptr) : Nat → Nat → Option (List Nat)
  | 0, _ => some []
  | n + 1, k =>
    match load h scr p k with
    | none => none
    | some l =>
      match readFrom h scr p n (k + 1) with
      | none => none
      | some ls => some (l :: ls)

/-- The natural number with the given base-2^64 limbs, least significant first. -/
def limbsVal : List Nat → Nat
  | [] => 0
  | l :: ls => l + 2 ^ 64 * limbsVal ls

/-- The value denoted by a header: sign of `_mp_size` times the magnitude
held in `|_mp_size|` limbs. -/
def mpz_val (h : Heap) (scr : Option Nat) (x : mpz) : Option Int :=
  match readFrom h scr x._mp_d x._mp_size.natAbs 0 with
  | none => none
  | some ls => some (x._mp_size.sign * (limbsVal ls : Int))

/-- The digits of a bag, read at its current address. -/
def bagLimbs (h : Heap) (id : Nat) : List Nat :=
  (List.range (h.size id)).map (fun k => h.mem (h.addr id + k))

/-- The integer a host object denotes. -/
def val (h : Heap) : Obj → Int
  | .intobj i => i
  | .bag id =>
    if h.tnum id = .T_INTPOS then (limbsVal (bagLimbs h id) : Int)
    else -(limbsVal (bagLimbs h id) : Int)

/-! ## The native library (FLINT / GMP) and the host kernel, at their interface -/

/-- Modelled from the spec: the native integer `fmpz` (FLINT, not in src/),
an arbitrary-precision integer identified with the value it holds. -/
abbrev fmpz := Int

/-- Modelled from the spec: the dense integer matrix `fmpz_mat_t` (FLINT, not
in src/): explicit row and column counts and an entry for each position. -/
structure fmpz_mat where
  r : Nat
  c : Nat
  entry : Nat → Nat → fmpz

/-- Modelled from the spec: `fmpz_mat_init` (FLINT, not in src/) allocates a
matrix of exactly the given shape, with all entries zero. -/
def fmpz_mat_init (rows cols : Nat) : fmpz_mat :=
  { r := rows, c := cols, entry := fun _ _ => 0 }

/-- Assignment through the entry address `fmpz_mat_entry(res, i, j)`. -/
def fmpz_mat_set (A : fmpz_mat) (i j : Nat) (f : fmpz) : fmpz_mat :=
  { A with entry := fun a b => if a = i ∧ b = j then f else A.entry a b }

/-- Modelled from the spec: `fmpz_mat_one` (FLINT, not in src/) sets a matrix
to the identity. -/
def fmpz_mat_one (A : fmpz_mat) : fmpz_mat :=
  { A with entry := fun a b => if a = b then 1 else 0 }

/-- Modelled from the spec: `fmpz_set_mpz` (FLINT, not in src/) stores the
value of a big-integer header; sizes 0, 1 and -1 are special-cased on the
first limb. -/
def fmpz_set_mpz (h : Heap) (scr : Option Nat) (x : mpz) : Option fmpz :=
  if x._mp_size = 0 then some 0
  else if x._mp_size = 1 then (load h scr x._mp_d 0).map (fun l => (l : Int))
  else if x._mp_size = -1 then (load h scr x._mp_d 0).map (fun l => -(l : Int))
  else mpz_val h scr x

/-- Base-2^64 limbs of a natural number, least significant first; `fuel`
bounds the number of limbs produced. -/
def toLimbs : Nat → Nat → List Nat
  | 0, _ => []
  | fuel + 1, n => if n = 0 then [] else (n % 2 ^ 64) :: toLimbs fuel (n / 2 ^ 64)

/-- Modelled from the spec: `fmpz_get_mpz` (FLINT, not in src/) writes the
value into a library-owned header: normalised limbs of the magnitude, the
sign carried by `_mp_size`. -/
def fmpz_get_mpz (f : fmpz) : mpz :=
  let ls := toLimbs f.natAbs f.natAbs
  { _mp_alloc := max 1 (ls.length : Int),
    _mp_size := f.sign * (ls.length : Int),
    _mp_d := .native ls }

/-- Removes the most significant zero limbs. -/
def normalize : List Nat → List Nat
  | [] => []
  | l :: ls =>
    match normalize ls with
    | [] => if l = 0 then [] else [l]
    | r :: rs => l :: r :: rs

/-- Modelled from the spec: `NewBag` of the host kernel (not in src/)
restricted to integer bags: a fresh bag at the end of the heap holding the
given digits. -/
def NewBag (h : Heap) (t : TNum) (ls : List Nat) : Heap × Obj :=
  ({ tnum := fun id => if id = h.nbags then t else h.tnum id,
     size := fun id => if id = h.nbags then ls.length else h.size id,
     addr := fun id => if id = h.nbags then h.top else h.addr id,
     mem := fun a => if h.top ≤ a ∧ a < h.top + ls.length then ls.getD (a - h.top) 0
                     else h.mem a,
     nbags := h.nbags + 1,
     top := h.top + ls.length },
   .bag h.nbags)

/-- Modelled from the spec: `MakeObjInt` of the host kernel (not in src/)
constructs a host integer from sign and magnitude digits: size 0 is the
immediate 0, a magnitude that fits is an immediate integer, anything else a
fresh bag tagged positive or negative. -/
def MakeObjInt (h : Heap) (scr : Option Nat) (limbs : Ptr) (size : Int) :
    Option (Heap × Obj) :=
  if size = 0 then some (h, .intobj 0)
  else
    match readFrom h scr limbs size.natAbs 0 with
    | none => none
    | some ls =>
      let ds := normalize ls
      if 0 < size then
        if (limbsVal ds : Int) ≤ INT_INTOBJ_MAX then some (h, .intobj (limbsVal ds))
        else some (NewBag h .T_INTPOS ds)
      else
        if -(limbsVal ds : Int) ≥ INT_INTOBJ_MIN then some (h, .intobj (-(limbsVal ds : Int)))
        else some (NewBag h .T_INTNEG ds)

/-- Source lines 40-43. -/
def GMPorINTOBJ_MPZ (h : Heap) (scr : Option Nat) (v : mpz) : Option (Heap × Obj) :=
  MakeObjInt h scr v._mp_d v._mp_size

/-! ## Host lists -/

def LEN_LIST {α : Type} (l : List α) : Nat := l.length

/-- Element at a 1-based position; `none` past the end. -/
def ELM_LIST {α : Type} (l : List α) (pos : Nat) : Option α :=
  if pos = 0 then none else l.get? (pos - 1)

/-- A plain list under construction: a slot is `none` until assigned. -/
abbrev PList (α : Type) := List (Option α)

/-- The pair `NEW_PLIST(T_PLIST, n); SET_LEN_PLIST(l, n)`: `n` unassigned slots. -/
def NEW_PLIST (α : Type) (n : Nat) : PList α := List.replicate n none

def SET_ELM_PLIST {α : Type} (l : PList α) (pos : Nat) (x : α) : PList α :=
  if pos = 0 then l else l.set (pos - 1) (some x)

/-! ## Matrix marshalling -/

/-- Inner loop of `mat_gap2flint` (source lines 104-108): `k` iterations
remain, the column index is `j`.  The view `tmp` is reused across cells. -/
def mat_gap2flint_cols (h : Heap) (x : List (List Obj)) (i : Nat) :
    Nat → Nat → fmpz_mat × fake_mpz → Option (fmpz_mat × fake_mpz)
  | 0, _, s => some s
  | k + 1, j, (res, tmp) =>
    match ELM_LIST x (i + 1) with
    | none => none
    | some row =>
      match ELM_LIST row (j + 1) with
      | none => none
      | some entry =>
        let tmp1 := FAKEMPZ_GMPorINTOBJ h tmp entry
        let (tmp2, v) := MPZ_FAKEMPZ h tmp1
        match fmpz_set_mpz h (some tmp2.tmp) v with
        | none => none
        | some f => mat_gap2flint_cols h x i k (j + 1) (fmpz_mat_set res i j f, tmp2)

/-- Outer loop of `mat_gap2flint` (source lines 103-109): `k` iterations
remain, the row index is `i`. -/
def mat_gap2flint_rows (h : Heap) (x : List (List Obj)) (m : Nat) :
    Nat → Nat → fmpz_mat × fake_mpz → Option (fmpz_mat × fake_mpz)
  | 0, _, s => some s
  | k + 1, i, s =>
    match mat_gap2flint_cols h x i m 0 s with
    | none => none
    | some s1 => mat_gap2flint_rows h x m k (i + 1) s1

/-- The shape computed at source lines 98-99. -/
def mat_gap2flint_shape (x : List (List Obj)) : Option (Nat × Nat) :=
  let n := LEN_LIST x
  if n ≠ 0 then
    match ELM_LIST x 1 with
    | none => none
    | some row => some (n, LEN_LIST row)
  else some (n, 0)

/-- Source lines 92-110.  `tmp` is the uninitialised local view. -/
def mat_gap2flint (h : Heap) (tmp : fake_mpz) (x : List (List Obj)) : Option fmpz_mat :=
  match mat_gap2flint_shape x with
  | none => none
  | some (n, m) =>
    let res := fmpz_mat_init n m
    match mat_gap2flint_rows h x m n 0 (res, tmp) with
    | none => none
    | some (res1, _) => some res1

/-- Inner loop of `mat_flint2gap` (source lines 132-136): `k` iterations
remain, the 1-based column index is `j`. -/
def mat_flint2gap_cols (x : fmpz_mat) (i : Nat) :
    Nat → Nat → Heap × PList Obj → Option (Heap × PList Obj)
  | 0, _, s => some s
  | k + 1, j, (h, row) =>
    let entry := x.entry (i - 1) (j - 1)
    let tmp := fmpz_get_mpz entry
    match GMPorINTOBJ_MPZ h none tmp with
    | none => none
    | some (h1, o) => mat_flint2gap_cols x i k (j + 1) (h1, SET_ELM_PLIST row j o)

/-- Outer loop of `mat_flint2gap` (source lines 128-137): `k` iterations
remain, the 1-based row index is `i`.  The row is stored in `res` once it is
filled (in the source `res` holds a reference to the row being filled). -/
def mat_flint2gap_rows (x : fmpz_mat) (m : Nat) :
    Nat → Nat → Heap × PList (PList Obj) → Option (Heap × PList (PList Obj))
  | 0, _, s => some s
  | k + 1, i, (h, res) =>
    let row := NEW_PLIST Obj m
    match mat_flint2gap_cols x i m 1 (h, row) with
    | none => none
    | some (h1, row1) => mat_flint2gap_rows x m k (i + 1) (h1, SET_ELM_PLIST res i row1)

/-- Source lines 112-142. -/
def mat_flint2gap (h : Heap) (x : fmpz_mat) : Option (Heap × PList (PList Obj)) :=
  let n := x.r
  let m := x.c
  let res := NEW_PLIST (PList Obj) n
  mat_flint2gap_rows x m n 1 (h, res)

/-! ## Windows and the orchestration -/

/-- Whether row `i` of a matrix is entirely zero. -/
def rowIsZero (B : fmpz_mat) (i : Nat) : Bool :=
  (List.range B.c).all (fun j => decide (B.entry i j = 0))

/-- Scan for the first row that is not entirely zero: `k` rows remain to be
looked at, `i` is the current row. -/
def zeroRowsFrom (B : fmpz_mat) : Nat → Nat → Nat
  | 0, i => i
  | k + 1, i => if rowIsZero B i then zeroRowsFrom B k (i + 1) else i

/-- Number of leading all-zero rows. -/
def leadingZeroRows (B : fmpz_mat) : Nat := zeroRowsFrom B B.r 0

/-- Modelled from the spec: the window utility of this name (FLINT, not in
src/): a non-owning alias that excludes the maximal run of
leading all-zero rows and the corresponding columns. -/
def _fmpz_mat_read_only_window_init_strip_initial_zero_rows_and_corresponding_cols (B : fmpz_mat) : fmpz_mat :=
  let z := leadingZeroRows B
  { r := B.r - z, c := B.c - z, entry := fun a b => B.entry (z + a) (z + b) }

/-- Modelled from the spec: `fmpz_mat_window_init` (FLINT, not in src/): a
non-owning alias over rows `r1 .. r2-1` and columns `c1 .. c2-1`. -/
def fmpz_mat_window_init (B : fmpz_mat) (r1 c1 r2 c2 : Nat) : fmpz_mat :=
  { r := r2 - r1, c := c2 - c1, entry := fun a b => B.entry (r1 + a) (c1 + b) }

/-- Input representation selected in the reduction context. -/
inductive rep_type
  | GRAM
  | Z_BASIS
  deriving DecidableEq, Repr

/-- The reduction context `fmpz_lll_t`, as far as the source sets it. -/
structure fmpz_lll_t where
  delta : Float
  rt : rep_type

/-- The result record with its two fixed keys. -/
structure ResultRecord where
  remainder : PList (PList Obj)
  transformation : PList (PList Obj)

/-- Source lines 152-193.  The reduction routine `fmpz_lll` is external and
trusted; it is a parameter that maps the context and the pair `(mat, trans)`
to the pair it leaves behind.  `fl0` is the default context. -/
def FuncLLLReducedGramMatFLINT
    (fmpz_lll : fmpz_lll_t → fmpz_mat → fmpz_mat → fmpz_mat × fmpz_mat)
    (fl0 : fmpz_lll_t) (h : Heap) (tmp : fake_mpz)
    (gram : List (List Obj)) (delta : Float) : Option (Heap × ResultRecord) :=
  let fl := { fl0 with rt := rep_type.GRAM, delta := delta }
  match mat_gap2flint h tmp gram with
  | none => none
  | some mat0 =>
    let trans0 := fmpz_mat_one (fmpz_mat_init mat0.r mat0.r)
    let red := fmpz_lll fl mat0 trans0
    let mat1 := red.1
    let trans1 := red.2
    let w_rem := _fmpz_mat_read_only_window_init_strip_initial_zero_rows_and_corresponding_cols mat1
    let w_trans := fmpz_mat_window_init trans1 (mat1.r - w_rem.r) 0 mat1.r mat1.r
    match mat_flint2gap h w_rem with
    | none => none
    | some (h1, remainder) =>
      match mat_flint2gap h1 w_trans with
      | none => none
      | some (h2, transformation) =>
        some (h2, { remainder := remainder, transformation := transformation })

/-- The column count `mat_gap2flint` uses: the length of the first row, or 0. -/
def firstRowLen (x : List (List Obj)) : Nat :=
  match x with
  | [] => 0
  | row :: _ => row.length

/-- An immediate integer lies in the host's immediate range; nothing is
asked of a bag reference. -/
def InRange : Obj → Prop
  | .intobj i => INT_INTOBJ_MIN ≤ i ∧ i ≤ INT_INTOBJ_MAX
  | .bag _ => True

instance (o : Obj) : Decidable (InRange o) := by
  cases o <;> unfold InRange <;> infer_instance

/-- A bag reference is owned by the heap when the bag exists and its digits
lie below the allocation pointer; immediate integers need no storage. -/
def Owned (h : Heap) : Obj → Prop
  | .intobj _ => True
  | .bag id => id < h.nbags ∧ h.addr id + h.size id ≤ h.top

/-- Heap `h1` extends `h`: every object owned by `h` is owned by `h1` and
denotes the same integer there. -/
def Extends (h h1 : Heap) : Prop :=
  ∀ o, Owned h o → Owned h1 o ∧ val h1 o = val h o

/-- Element `j+1` of row `i+1` of a host matrix (the immediate 0 outside). -/
def cell (x : List (List Obj)) (i j : Nat) : Obj :=
  (x.getD i []).getD j (.intobj 0)

/-- A filled host row of length `m` whose slot `b` holds an owned integer
object denoting `e b`. -/
def RowHolds (h : Heap) (e : Nat → Int) (m : Nat) (row : PList Obj) : Prop :=
  row.length = m ∧
  ∀ b, b < m → ∃ o, row.get? b = some (some o) ∧ Owned h o ∧ val h o = e b

/-- A filled host matrix with `n` rows of length `m` whose slot `(a, b)`
holds an owned integer object denoting `E a b`. -/
def MatHolds (h : Heap) (E : Nat → Nat → Int) (n m : Nat) (res : PList (PList Obj)) : Prop :=
  res.length = n ∧
  ∀ a, a < n → ∃ row, res.get? a = some (some row) ∧ RowHolds h (E a) m row

/-- The native matrix of a host matrix: entry `(a, b)` is the value of element
`b+1` of row `a+1`. -/
def gramMat (h : Heap) (A : List (List Obj)) : fmpz_mat :=
  { r := A.length, c := firstRowLen A,
    entry := fun a b => if a < A.length ∧ b < firstRowLen A then val h (cell A a b) else 0 }

/-- The pair `(mat, trans)` the reduction routine leaves behind in
`FuncLLLReducedGramMatFLINT`. -/
def reduced (fmpz_lll : fmpz_lll_t → fmpz_mat → fmpz_mat → fmpz_mat × fmpz_mat)
    (fl0 : fmpz_lll_t) (h : Heap) (gram : List (List Obj)) (delta : Float) :
    fmpz_mat × fmpz_mat :=
  fmpz_lll { fl0 with rt := rep_type.GRAM, delta := delta } (gramMat h gram)
    (fmpz_mat_one (fmpz_mat_init gram.length gram.length))

/-- A well-formed host matrix: no row shorter than the first, every element
read an integer in range. -/
def WellFormed (A : List (List Obj)) : Prop :=
  (∀ a, a < A.length → firstRowLen A ≤ (A.getD a []).length) ∧
  (∀ a, a < A.length → ∀ b, b < firstRowLen A → InRange (cell A a b))

instance (A : List (List Obj)) : Decidable (WellFormed A) := by
  unfold WellFormed; infer_instance

/-! ## Concrete inputs used to exercise the statements -/

/-- A heap with one bag: the negative integer `-(5 + 7 * 2^64)` stored at address 10. -/
def exHeap : Heap :=
  { tnum := fun id => if id = 0 then .T_INTNEG else .T_OTHER,
    size := fun id => if id = 0 then 2 else 0,
    addr := fun id => if id = 0 then 10 else 0,
    mem := fun a => if a = 10 then 5 else if a = 11 then 7 else 0,
    nbags := 1,
    top := 12 }

/-- A view left over from an earlier use: stale pointer, stale fields. -/
def exFake : fake_mpz :=
  { v := { _mp_alloc := 3, _mp_size := -2, _mp_d := .heap 999 }, tmp := 77, obj := some (.bag 4) }

/-- A default reduction context. -/
def exFl0 : fmpz_lll_t := { delta := 0.99, rt := rep_type.Z_BASIS }

/-- A reduction routine that leaves its arguments as they are (its behaviour
on an input that is already reduced). -/
def exLLL : fmpz_lll_t → fmpz_mat → fmpz_mat → fmpz_mat × fmpz_mat :=
  fun _ M T => (M, T)

/-- The 2x2 all-zero Gram matrix. -/
def exZero : List (List Obj) := [[.intobj 0, .intobj 0], [.intobj 0, .intobj 0]]

/-- The Gram matrix `[[2,1],[1,2]]`. -/
def exGram : List (List Obj) := [[.intobj 2, .intobj 1], [.intobj 1, .intobj 2]]

/-- A degenerate Gram matrix whose first row is zero. -/
def exDegenerate : List (List Obj) := [[.intobj 0, .intobj 0], [.intobj 0, .intobj 2]]

/-! ## Basic facts about the loops -/

theorem fmpz_mat_set_r (A : fmpz_mat) (i j : Nat) (f : fmpz) : (fmpz_mat_set A i j f).r = A.r := rfl

theorem fmpz_mat_set_c (A : fmpz_mat) (i j : Nat) (f : fmpz) : (fmpz_mat_set A i j f).c = A.c := rfl

theorem mat_gap2flint_cols_shape (h : Heap) (x : List (List Obj)) (i : Nat) :
    ∀ (k j : Nat) (s s1 : fmpz_mat × fake_mpz),
      mat_gap2flint_cols h x i k j s = some s1 → s1.1.r = s.1.r ∧ s1.1.c = s.1.c := by
  intro k
  induction k with
  | zero =>
    intro j s s1 hs
    simp only [mat_gap2flint_cols, Option.some.injEq] at hs
    subst hs
    exact ⟨rfl, rfl⟩
  | succ k ih =>
    intro j s s1 hs
    obtain ⟨res, tmp⟩ := s
    simp only [mat_gap2flint_cols] at hs
    split at hs
    · exact absurd hs (by simp)
    · split at hs
      · exact absurd hs (by simp)
      · split at hs
        · exact absurd hs (by simp)
        · have := ih _ _ _ hs
          simpa [fmpz_mat_set_r, fmpz_mat_set_c] using this

theorem mat_gap2flint_rows_shape (h : Heap) (x : List (List Obj)) (m : Nat) :
    ∀ (k i : Nat) (s s1 : fmpz_mat × fake_mpz),
      mat_gap2flint_rows h x m k i s = some s1 → s1.1.r = s.1.r ∧ s1.1.c = s.1.c := by
  intro k
  induction k with
  | zero =>
    intro i s s1 hs
    simp only [mat_gap2flint_rows, Option.some.injEq] at hs
    subst hs
    exact ⟨rfl, rfl⟩
  | succ k ih =>
    intro i s s1 hs
    simp only [mat_gap2flint_rows] at hs
    split at hs
    · exact absurd hs (by simp)
    · next s2 h2 =>
      have h3 := mat_gap2flint_cols_shape h x i m 0 s s2 h2
      have h4 := ih _ _ _ hs
      exact ⟨h4.1.trans h3.1, h4.2.trans h3.2⟩

theorem mat_gap2flint_shape_eq (x : List (List Obj)) :
    mat_gap2flint_shape x = some (x.length, firstRowLen x) := by
  cases x with
  | nil => simp [mat_gap2flint_shape, LEN_LIST, firstRowLen]
  | cons row rest => simp [mat_gap2flint_shape, LEN_LIST, ELM_LIST, firstRowLen]

/-! ## Shape of `mat_gap2flint` -/

theorem wrapInt_of_range (z : Int) (h1 : -(2 ^ 63) ≤ z) (h2 : z < 2 ^ 63) : wrapInt z = z := by
  unfold wrapInt
  have : (z + 2 ^ 63) % 2 ^ 64 = z + 2 ^ 63 := Int.emod_eq_of_lt (by omega) (by omega)
  omega

theorem toLimb_of_range (z : Int) (h1 : 0 ≤ z) (h2 : z < 2 ^ 64) : toLimb z = z.toNat := by
  unfold toLimb
  rw [Int.emod_eq_of_lt h1 h2]

/-- The small case of the view, field by field. -/
theorem FAKEMPZ_small_fields (h : Heap) (fake : fake_mpz) (i : Int)
    (hlo : INT_INTOBJ_MIN ≤ i) (hhi : i ≤ INT_INTOBJ_MAX) :
    (FAKEMPZ_GMPorINTOBJ h fake (.intobj i)).obj = none ∧
    (FAKEMPZ_GMPorINTOBJ h fake (.intobj i)).v._mp_alloc = 1 ∧
    (FAKEMPZ_GMPorINTOBJ h fake (.intobj i)).tmp = i.natAbs ∧
    wrapInt (-i) = -i ∧
    (FAKEMPZ_GMPorINTOBJ h fake (.intobj i)).v._mp_size.natAbs = (if i = 0 then 0 else 1) ∧
    (FAKEMPZ_GMPorINTOBJ h fake (.intobj i)).v._mp_size.sign = i.sign := by
  simp only [INT_INTOBJ_MIN, INT_INTOBJ_MAX] at hlo hhi
  have hw : wrapInt (-i) = -i := wrapInt_of_range (-i) (by omega) (by omega)
  by_cases hi : i ≥ 0
  · have ht : toLimb i = i.natAbs := by
      rw [toLimb_of_range i hi (by omega)]; omega
    simp only [FAKEMPZ_GMPorINTOBJ, IS_INTOBJ, INT_INTOBJ, hi, if_true, ht, hw]
    refine ⟨trivial, trivial, trivial, trivial, ?_, ?_⟩
    · by_cases h0 : i = 0 <;> simp [h0]
    · by_cases h0 : i = 0
      · simp [h0]
      · have : 0 < i := by omega
        simp [h0, Int.sign_eq_one_of_pos this]
  · have ht : toLimb (-i) = i.natAbs := by
      rw [toLimb_of_range (-i) (by omega) (by omega)]; omega
    have hneg : i < 0 := by omega
    simp only [FAKEMPZ_GMPorINTOBJ, IS_INTOBJ, INT_INTOBJ, hi, if_false, if_true, hw, ht]
    refine ⟨trivial, trivial, trivial, trivial, ?_, ?_⟩
    · have : i ≠ 0 := by omega
      simp [this]
    · rw [Int.sign_eq_neg_one_of_neg hneg]; rfl

/-- C7: for an immediate integer `i` in the host's immediate range the view
has no object reference, allocation length 1, the inline limb equal to `|i|`
(the negation does not overflow the signed word), magnitude length 0 for
`i = 0` and 1 otherwise, and `_mp_size` has the sign of `i`. -/
theorem FAKEMPZ_GMPorINTOBJ_small (h : Heap) (fake : fake_mpz) (i : Int)
    (hlo : INT_INTOBJ_MIN ≤ i) (hhi : i ≤ INT_INTOBJ_MAX) :
    (FAKEMPZ_GMPorINTOBJ h fake (.intobj i)).obj = none ∧
    (FAKEMPZ_GMPorINTOBJ h fake (.intobj i)).v._mp_alloc = 1 ∧
    (FAKEMPZ_GMPorINTOBJ h fake (.intobj i)).tmp = i.natAbs ∧
    wrapInt (-i) = -i ∧
    (FAKEMPZ_GMPorINTOBJ h fake (.intobj i)).v._mp_size.natAbs = (if i = 0 then 0 else 1) ∧
    (FAKEMPZ_GMPorINTOBJ h fake (.intobj i)).v._mp_size.sign = i.sign :=
  FAKEMPZ_small_fields h fake i hlo hhi

/-- C7 (witness): the small case at `i = -5`, with a stale view. -/
theorem FAKEMPZ_GMPorINTOBJ_small_witness :
    INT_INTOBJ_MIN ≤ -5 ∧ (-5 : Int) ≤ INT_INTOBJ_MAX ∧
    (FAKEMPZ_GMPorINTOBJ exHeap exFake (.intobj (-5))).obj = none ∧
    (FAKEMPZ_GMPorINTOBJ exHeap exFake (.intobj (-5))).v._mp_alloc = 1 ∧
    (FAKEMPZ_GMPorINTOBJ exHeap exFake (.intobj (-5))).tmp = (-5 : Int).natAbs ∧
    wrapInt (-(-5)) = -(-5) ∧
    (FAKEMPZ_GMPorINTOBJ exHeap exFake (.intobj (-5))).v._mp_size.natAbs
      = (if (-5 : Int) = 0 then 0 else 1) ∧
    (FAKEMPZ_GMPorINTOBJ exHeap exFake (.intobj (-5))).v._mp_size.sign = (-5 : Int).sign :=
  ⟨by decide, by decide,
   FAKEMPZ_GMPorINTOBJ_small exHeap exFake (-5) (by decide) (by decide)⟩

/-- C8: the view satisfies `_mp_alloc >= |_mp_size|`; in the large case it
records the object, `_mp_alloc` is the digit count and `_mp_size` is plus or
minus the digit count according to the positive-integer tag; in the small case
`_mp_alloc = 1` and `|_mp_size| <= 1`. -/
theorem FAKEMPZ_GMPorINTOBJ_invariant (h : Heap) (fake : fake_mpz) :
    (∀ op : Obj, ((FAKEMPZ_GMPorINTOBJ h fake op).v._mp_size.natAbs : Int)
        ≤ (FAKEMPZ_GMPorINTOBJ h fake op).v._mp_alloc) ∧
    (∀ id : Nat,
      (FAKEMPZ_GMPorINTOBJ h fake (.bag id)).obj = some (.bag id) ∧
      (FAKEMPZ_GMPorINTOBJ h fake (.bag id)).v._mp_alloc = (SIZE_INT h (.bag id) : Int) ∧
      (FAKEMPZ_GMPorINTOBJ h fake (.bag id)).v._mp_size
        = (if TNUM_OBJ h (.bag id) = .T_INTPOS then (SIZE_INT h (.bag id) : Int)
           else -(SIZE_INT h (.bag id) : Int))) ∧
    (∀ i : Int,
      (FAKEMPZ_GMPorINTOBJ h fake (.intobj i)).v._mp_alloc = 1 ∧
      (FAKEMPZ_GMPorINTOBJ h fake (.intobj i)).v._mp_size.natAbs ≤ 1) := by
  have hbag : ∀ id : Nat,
      (FAKEMPZ_GMPorINTOBJ h fake (.bag id)).obj = some (.bag id) ∧
      (FAKEMPZ_GMPorINTOBJ h fake (.bag id)).v._mp_alloc = (SIZE_INT h (.bag id) : Int) ∧
      (FAKEMPZ_GMPorINTOBJ h fake (.bag id)).v._mp_size
        = (if TNUM_OBJ h (.bag id) = .T_INTPOS then (SIZE_INT h (.bag id) : Int)
           else -(SIZE_INT h (.bag id) : Int)) := by
    intro id
    refine ⟨rfl, rfl, ?_⟩
    simp [FAKEMPZ_GMPorINTOBJ, IS_INTOBJ, IS_INTPOS]
  have hint : ∀ i : Int,
      (FAKEMPZ_GMPorINTOBJ h fake (.intobj i)).v._mp_alloc = 1 ∧
      (FAKEMPZ_GMPorINTOBJ h fake (.intobj i)).v._mp_size.natAbs ≤ 1 := by
    intro i
    simp only [FAKEMPZ_GMPorINTOBJ, IS_INTOBJ, INT_INTOBJ, if_true]
    by_cases hi : i ≥ 0
    · by_cases h0 : i = 0 <;> simp [hi, h0]
    · simp [hi]
  refine ⟨?_, hbag, hint⟩
  intro op
  cases op with
  | intobj i =>
    obtain ⟨h1, h2⟩ := hint i
    rw [h1]
    exact_mod_cast h2
  | bag id =>
    obtain ⟨_, h1, h2⟩ := hbag id
    rw [h1, h2]
    split <;> simp

/-! ## Resolution of the working pointer -/

theorem load_heap (h : Heap) (scr : Option Nat) (a k : Nat) :
    load h scr (.heap a) k = some (h.mem (a + k)) := rfl

theorem readFrom_heap (h : Heap) (scr : Option Nat) (a : Nat) :
    ∀ n k, readFrom h scr (.heap a) n k
      = some ((List.range n).map (fun t => h.mem (a + (k + t)))) := by
  intro n
  induction n with
  | zero => intro k; simp [readFrom]
  | succ n ih =>
    intro k
    simp only [readFrom, load_heap, ih (k + 1), List.range_succ_eq_map, List.map_cons,
      List.map_map, Nat.add_zero]
    congr 2
    apply List.map_congr_left
    intro t _
    simp only [Function.comp, Nat.succ_eq_add_one]
    congr 2
    omega

theorem fmpz_set_mpz_heap (h : Heap) (scr scr1 : Option Nat) (x : mpz) (a : Nat)
    (hd : x._mp_d = .heap a) : fmpz_set_mpz h scr x = fmpz_set_mpz h scr1 x := by
  simp only [fmpz_set_mpz, mpz_val, hd, load_heap, readFrom_heap]

theorem UPDATE_FAKEMPZ_FAKEMPZ_intobj (h : Heap) (f1 f2 : fake_mpz) (i : Int) :
    UPDATE_FAKEMPZ h (FAKEMPZ_GMPorINTOBJ h f1 (.intobj i))
      = UPDATE_FAKEMPZ h (FAKEMPZ_GMPorINTOBJ h f2 (.intobj i)) := by
  simp only [FAKEMPZ_GMPorINTOBJ, IS_INTOBJ, INT_INTOBJ, if_true]
  by_cases hi : i ≥ 0 <;> simp [hi, UPDATE_FAKEMPZ]

theorem UPDATE_FAKEMPZ_FAKEMPZ_bag (h : Heap) (f1 f2 : fake_mpz) (id : Nat) :
    (UPDATE_FAKEMPZ h (FAKEMPZ_GMPorINTOBJ h f1 (.bag id))).v
      = (UPDATE_FAKEMPZ h (FAKEMPZ_GMPorINTOBJ h f2 (.bag id))).v ∧
    (UPDATE_FAKEMPZ h (FAKEMPZ_GMPorINTOBJ h f1 (.bag id))).v._mp_d = .heap (h.addr id) := by
  simp [FAKEMPZ_GMPorINTOBJ, IS_INTOBJ, UPDATE_FAKEMPZ, ADDR_INT]

/-- The value stored for a cell does not depend on the view the cell's view
is built over. -/
theorem cell_indep (h : Heap) (f1 f2 : fake_mpz) (entry : Obj) :
    fmpz_set_mpz h (some (UPDATE_FAKEMPZ h (FAKEMPZ_GMPorINTOBJ h f1 entry)).tmp)
        (UPDATE_FAKEMPZ h (FAKEMPZ_GMPorINTOBJ h f1 entry)).v
      = fmpz_set_mpz h (some (UPDATE_FAKEMPZ h (FAKEMPZ_GMPorINTOBJ h f2 entry)).tmp)
        (UPDATE_FAKEMPZ h (FAKEMPZ_GMPorINTOBJ h f2 entry)).v := by
  cases entry with
  | intobj i => rw [UPDATE_FAKEMPZ_FAKEMPZ_intobj h f1 f2 i]
  | bag id =>
    obtain ⟨hv, hd⟩ := UPDATE_FAKEMPZ_FAKEMPZ_bag h f1 f2 id
    rw [← hv]
    exact fmpz_set_mpz_heap h _ _ _ _ hd

/-- One iteration of the inner loop of `mat_gap2flint`, spelled out: the
view is built, resolved against the current heap, and only then read. -/
theorem mat_gap2flint_cols_succ (h : Heap) (x : List (List Obj)) (i k j : Nat)
    (res : fmpz_mat) (tmp : fake_mpz) :
    mat_gap2flint_cols h x i (k + 1) j (res, tmp)
      = (ELM_LIST x (i + 1)).bind (fun row =>
          (ELM_LIST row (j + 1)).bind (fun entry =>
            (fmpz_set_mpz h (some (UPDATE_FAKEMPZ h (FAKEMPZ_GMPorINTOBJ h tmp entry)).tmp)
                (UPDATE_FAKEMPZ h (FAKEMPZ_GMPorINTOBJ h tmp entry)).v).bind (fun f =>
              mat_gap2flint_cols h x i k (j + 1)
                (fmpz_mat_set res i j f,
                 UPDATE_FAKEMPZ h (FAKEMPZ_GMPorINTOBJ h tmp entry))))) := by
  simp only [mat_gap2flint_cols, MPZ_FAKEMPZ]
  cases hx : ELM_LIST x (i + 1) with
  | none => rfl
  | some row =>
    simp only [Option.some_bind]
    cases hr : ELM_LIST row (j + 1) with
    | none => rfl
    | some entry =>
      simp only [Option.some_bind]
      cases hf : fmpz_set_mpz h (some (UPDATE_FAKEMPZ h (FAKEMPZ_GMPorINTOBJ h tmp entry)).tmp)
          (UPDATE_FAKEMPZ h (FAKEMPZ_GMPorINTOBJ h tmp entry)).v with
      | none => rfl
      | some f => rfl

theorem mat_gap2flint_rows_succ (h : Heap) (x : List (List Obj)) (m k i : Nat)
    (s : fmpz_mat × fake_mpz) :
    mat_gap2flint_rows h x m (k + 1) i s
      = (mat_gap2flint_cols h x i m 0 s).bind (fun s1 => mat_gap2flint_rows h x m k (i + 1) s1) := by
  simp only [mat_gap2flint_rows]
  cases mat_gap2flint_cols h x i m 0 s <;> rfl

theorem mat_gap2flint_cols_indep (h : Heap) (x : List (List Obj)) (i : Nat) :
    ∀ (k j : Nat) (res : fmpz_mat) (f1 f2 : fake_mpz),
      (mat_gap2flint_cols h x i k j (res, f1)).map Prod.fst
        = (mat_gap2flint_cols h x i k j (res, f2)).map Prod.fst := by
  intro k
  induction k with
  | zero => intro j res f1 f2; simp [mat_gap2flint_cols]
  | succ k ih =>
    intro j res f1 f2
    rw [mat_gap2flint_cols_succ, mat_gap2flint_cols_succ]
    cases ELM_LIST x (i + 1) with
    | none => rfl
    | some row =>
      simp only [Option.some_bind]
      cases ELM_LIST row (j + 1) with
      | none => rfl
      | some entry =>
        simp only [Option.some_bind]
        rw [cell_indep h f1 f2 entry]
        cases fmpz_set_mpz h (some (UPDATE_FAKEMPZ h (FAKEMPZ_GMPorINTOBJ h f2 entry)).tmp)
            (UPDATE_FAKEMPZ h (FAKEMPZ_GMPorINTOBJ h f2 entry)).v with
        | none => rfl
        | some f =>
          simp only [Option.some_bind]
          exact ih _ _ _ _

theorem mat_gap2flint_rows_indep (h : Heap) (x : List (List Obj)) (m : Nat) :
    ∀ (k i : Nat) (res : fmpz_mat) (f1 f2 : fake_mpz),
      (mat_gap2flint_rows h x m k i (res, f1)).map Prod.fst
        = (mat_gap2flint_rows h x m k i (res, f2)).map Prod.fst := by
  intro k
  induction k with
  | zero => intro i res f1 f2; simp [mat_gap2flint_rows]
  | succ k ih =>
    intro i res f1 f2
    rw [mat_gap2flint_rows_succ, mat_gap2flint_rows_succ]
    have hc := mat_gap2flint_cols_indep h x i m 0 res f1 f2
    cases h1 : mat_gap2flint_cols h x i m 0 (res, f1) with
    | none =>
      cases h2 : mat_gap2flint_cols h x i m 0 (res, f2) with
      | none => rfl
      | some s2 => rw [h1, h2] at hc; simp at hc
    | some s1 =>
      cases h2 : mat_gap2flint_cols h x i m 0 (res, f2) with
      | none => rw [h1, h2] at hc; simp at hc
      | some s2 =>
        rw [h1, h2] at hc
        simp only [Option.map_some', Option.some.injEq] at hc
        obtain ⟨r1, t1⟩ := s1
        obtain ⟨r2, t2⟩ := s2
        simp only at hc
        subst hc
        simp only [Option.some_bind]
        exact ih _ _ _ _

theorem mat_gap2flint_indep (h : Heap) (f1 f2 : fake_mpz) (x : List (List Obj)) :
    mat_gap2flint h f1 x = mat_gap2flint h f2 x := by
  simp only [mat_gap2flint, mat_gap2flint_shape_eq]
  have hr := mat_gap2flint_rows_indep h x (firstRowLen x) x.length 0
    (fmpz_mat_init x.length (firstRowLen x)) f1 f2
  cases h1 : mat_gap2flint_rows h x (firstRowLen x) x.length 0
      (fmpz_mat_init x.length (firstRowLen x), f1) with
  | none =>
    cases h2 : mat_gap2flint_rows h x (firstRowLen x) x.length 0
        (fmpz_mat_init x.length (firstRowLen x), f2) with
    | none => rfl
    | some s2 => rw [h1, h2] at hr; simp at hr
  | some s1 =>
    cases h2 : mat_gap2flint_rows h x (firstRowLen x) x.length 0
        (fmpz_mat_init x.length (firstRowLen x), f2) with
    | none => rw [h1, h2] at hr; simp at hr
    | some s2 =>
      rw [h1, h2] at hr
      simp only [Option.map_some', Option.some.injEq] at hr
      obtain ⟨r1, t1⟩ := s1
      obtain ⟨r2, t2⟩ := s2
      simp only at hr
      subst hr
      rfl

/-- C9: `UPDATE_FAKEMPZ` (and `MPZ_FAKEMPZ`) sets the working pointer to the
current address of the referenced object's digits when the view references an
object and to the inline limb otherwise, whatever the pointer was before, and
leaves `obj`, `tmp`, `_mp_size` and `_mp_alloc` alone; in `mat_gap2flint` each
cell's view is built, resolved in the current heap and only then read by the
native library, so the matrix does not depend on the view left from before. -/
theorem UPDATE_FAKEMPZ_spec (h : Heap) (fake : fake_mpz) (p : Ptr) :
    (∀ id : Nat,
      (UPDATE_FAKEMPZ h { fake with obj := some (.bag id) }).v._mp_d = .heap (h.addr id)) ∧
    (UPDATE_FAKEMPZ h { fake with obj := none }).v._mp_d = .scratch ∧
    UPDATE_FAKEMPZ h { fake with v := { fake.v with _mp_d := p } } = UPDATE_FAKEMPZ h fake ∧
    (UPDATE_FAKEMPZ h fake).obj = fake.obj ∧
    (UPDATE_FAKEMPZ h fake).tmp = fake.tmp ∧
    (UPDATE_FAKEMPZ h fake).v._mp_size = fake.v._mp_size ∧
    (UPDATE_FAKEMPZ h fake).v._mp_alloc = fake.v._mp_alloc ∧
    MPZ_FAKEMPZ h fake = (UPDATE_FAKEMPZ h fake, (UPDATE_FAKEMPZ h fake).v) ∧
    (∀ (x : List (List Obj)) (i k j : Nat) (res : fmpz_mat),
      mat_gap2flint_cols h x i (k + 1) j (res, fake)
        = (ELM_LIST x (i + 1)).bind (fun row =>
            (ELM_LIST row (j + 1)).bind (fun entry =>
              (fmpz_set_mpz h (some (UPDATE_FAKEMPZ h (FAKEMPZ_GMPorINTOBJ h fake entry)).tmp)
                  (UPDATE_FAKEMPZ h (FAKEMPZ_GMPorINTOBJ h fake entry)).v).bind (fun f =>
                mat_gap2flint_cols h x i k (j + 1)
                  (fmpz_mat_set res i j f,
                   UPDATE_FAKEMPZ h (FAKEMPZ_GMPorINTOBJ h fake entry)))))) ∧
    (∀ (x : List (List Obj)),
      mat_gap2flint h { fake with v := { fake.v with _mp_d := p } } x = mat_gap2flint h fake x) :=
  ⟨fun _ => rfl, rfl, rfl, rfl, rfl, rfl, rfl, rfl,
   fun x i k j res => mat_gap2flint_cols_succ h x i k j res fake,
   fun x => mat_gap2flint_indep h _ _ x⟩

/-! ## Values of headers -/

theorem fmpz_set_mpz_eq_mpz_val (h : Heap) (scr : Option Nat) (x : mpz) :
    fmpz_set_mpz h scr x = mpz_val h scr x := by
  unfold fmpz_set_mpz mpz_val
  by_cases h0 : x._mp_size = 0
  · simp [h0, readFrom]
  · by_cases h1 : x._mp_size = 1
    · simp only [h1, if_true, readFrom]
      cases load h scr x._mp_d 0 <;> simp [limbsVal]
    · by_cases h2 : x._mp_size = -1
      · simp only [h2, if_true, readFrom]
        cases load h scr x._mp_d 0 <;> simp [limbsVal]
      · simp [h0, h1, h2]

theorem bagLimbs_eq_readFrom (h : Heap) (scr : Option Nat) (id : Nat) :
    readFrom h scr (.heap (h.addr id)) (h.size id) 0 = some (bagLimbs h id) := by
  rw [readFrom_heap]
  simp [bagLimbs]

/-- The resolved view of a host integer denotes the integer. -/
theorem view_val (h : Heap) (fake : fake_mpz) (op : Obj) (hop : InRange op) :
    mpz_val h (some (UPDATE_FAKEMPZ h (FAKEMPZ_GMPorINTOBJ h fake op)).tmp)
      (UPDATE_FAKEMPZ h (FAKEMPZ_GMPorINTOBJ h fake op)).v = some (val h op) := by
  cases op with
  | intobj i =>
    obtain ⟨hlo, hhi⟩ := hop
    obtain ⟨-, -, htmp, -, -, -⟩ := FAKEMPZ_small_fields h fake i hlo hhi
    simp only [INT_INTOBJ_MIN, INT_INTOBJ_MAX] at hlo hhi
    have hd : (UPDATE_FAKEMPZ h (FAKEMPZ_GMPorINTOBJ h fake (.intobj i))).v._mp_d = .scratch := by
      simp only [FAKEMPZ_GMPorINTOBJ, IS_INTOBJ, INT_INTOBJ, if_true]
      by_cases hi : i ≥ 0 <;> simp [hi, UPDATE_FAKEMPZ]
    have hs : (UPDATE_FAKEMPZ h (FAKEMPZ_GMPorINTOBJ h fake (.intobj i))).v._mp_size = i.sign := by
      simp only [FAKEMPZ_GMPorINTOBJ, IS_INTOBJ, INT_INTOBJ, if_true]
      by_cases hi : i ≥ 0
      · by_cases h0 : i = 0
        · simp [h0, UPDATE_FAKEMPZ]
        · have : 0 < i := by omega
          simp [hi, h0, UPDATE_FAKEMPZ, Int.sign_eq_one_of_pos this]
      · have : i < 0 := by omega
        simp [hi, UPDATE_FAKEMPZ, Int.sign_eq_neg_one_of_neg this]
    have ht : (UPDATE_FAKEMPZ h (FAKEMPZ_GMPorINTOBJ h fake (.intobj i))).tmp = i.natAbs := htmp
    simp only [mpz_val, hd, hs, ht, val]
    by_cases h0 : i = 0
    · subst h0
      simp [readFrom]
    · have hn : i.sign.natAbs = 1 := by
        rcases Int.lt_or_gt_of_ne h0 with hneg | hpos
        · rw [Int.sign_eq_neg_one_of_neg hneg]; rfl
        · rw [Int.sign_eq_one_of_pos hpos]; rfl
      simp only [hn, readFrom, load, if_true, limbsVal, Nat.mul_zero, Nat.add_zero,
        Int.sign_sign, Option.some.injEq]
      exact Int.sign_mul_natAbs i
  | bag id =>
    have hd : (UPDATE_FAKEMPZ h (FAKEMPZ_GMPorINTOBJ h fake (.bag id))).v._mp_d
        = .heap (h.addr id) := (UPDATE_FAKEMPZ_FAKEMPZ_bag h fake fake id).2
    have hs : (UPDATE_FAKEMPZ h (FAKEMPZ_GMPorINTOBJ h fake (.bag id))).v._mp_size
        = (if h.tnum id = .T_INTPOS then (h.size id : Int) else -(h.size id : Int)) := by
      simp [FAKEMPZ_GMPorINTOBJ, IS_INTOBJ, UPDATE_FAKEMPZ, IS_INTPOS, TNUM_OBJ, SIZE_INT]
    simp only [mpz_val, hd, hs, val]
    by_cases hp : h.tnum id = .T_INTPOS
    · simp only [hp, if_true, Int.natAbs_ofNat, bagLimbs_eq_readFrom, Option.some.injEq]
      by_cases hz : h.size id = 0
      · simp [bagLimbs, hz, limbsVal]
      · have : (0 : Int) < (h.size id : Int) := by omega
        rw [Int.sign_eq_one_of_pos this]; simp
    · simp only [hp, if_false, Int.natAbs_neg, Int.natAbs_ofNat, bagLimbs_eq_readFrom,
        Option.some.injEq]
      by_cases hz : h.size id = 0
      · simp [bagLimbs, hz, limbsVal]
      · have : -(h.size id : Int) < 0 := by omega
        rw [Int.sign_eq_neg_one_of_neg this]; simp

/-! ## Limbs of the native library and of fresh bags -/

theorem limbsVal_toLimbs : ∀ (fuel n : Nat), n ≤ fuel → limbsVal (toLimbs fuel n) = n := by
  intro fuel
  induction fuel with
  | zero =>
    intro n hn
    have : n = 0 := by omega
    subst this
    rfl
  | succ fuel ih =>
    intro n hn
    by_cases h0 : n = 0
    · subst h0; simp [toLimbs, limbsVal]
    · have hdiv : n / 2 ^ 64 ≤ fuel := by
        have : n / 2 ^ 64 < n := Nat.div_lt_self (by omega) (by norm_num)
        omega
      simp only [toLimbs, h0, if_false, limbsVal, ih _ hdiv]
      have := Nat.mod_add_div n (2 ^ 64)
      omega

theorem toLimbs_length_pos (n : Nat) (hn : n ≠ 0) : 0 < (toLimbs n n).length := by
  cases n with
  | zero => exact absurd rfl hn
  | succ m => simp [toLimbs]

theorem readFrom_native (h : Heap) (scr : Option Nat) (buf : List Nat) :
    ∀ n k, k + n ≤ buf.length →
      readFrom h scr (.native buf) n k = some ((buf.drop k).take n) := by
  intro n
  induction n with
  | zero => intro k _; simp [readFrom]
  | succ n ih =>
    intro k hk
    have hlt : k < buf.length := by omega
    have hget : buf.get? k = some buf[k] := List.get?_eq_get hlt
    simp only [readFrom, load, hget, ih (k + 1) (by omega)]
    rw [List.drop_eq_getElem_cons hlt]
    rfl

theorem readFrom_native_all (h : Heap) (scr : Option Nat) (buf : List Nat) :
    readFrom h scr (.native buf) buf.length 0 = some buf := by
  rw [readFrom_native h scr buf buf.length 0 (by omega)]
  simp

theorem fmpz_get_mpz_size (f : fmpz) :
    (fmpz_get_mpz f)._mp_size.natAbs = (toLimbs f.natAbs f.natAbs).length ∧
    (fmpz_get_mpz f)._mp_size.sign = f.sign := by
  simp only [fmpz_get_mpz]
  by_cases h0 : f = 0
  · subst h0; simp [toLimbs]
  · have hn : f.natAbs ≠ 0 := by simpa using h0
    have hl := toLimbs_length_pos f.natAbs hn
    have hl2 : (0 : Int) < ((toLimbs f.natAbs f.natAbs).length : Int) := by exact_mod_cast hl
    rcases Int.lt_or_gt_of_ne h0 with hneg | hpos
    · rw [Int.sign_eq_neg_one_of_neg hneg]
      constructor
      · simp
      · have : -1 * ((toLimbs f.natAbs f.natAbs).length : Int) < 0 := by omega
        exact Int.sign_eq_neg_one_of_neg this
    · rw [Int.sign_eq_one_of_pos hpos]
      constructor
      · simp
      · have : 0 < 1 * ((toLimbs f.natAbs f.natAbs).length : Int) := by omega
        exact Int.sign_eq_one_of_pos this

/-- The header written by `fmpz_get_mpz` denotes the value it was given. -/
theorem fmpz_get_mpz_val (h : Heap) (scr : Option Nat) (f : fmpz) :
    mpz_val h scr (fmpz_get_mpz f) = some f := by
  obtain ⟨hs, hsg⟩ := fmpz_get_mpz_size f
  have hd : (fmpz_get_mpz f)._mp_d = .native (toLimbs f.natAbs f.natAbs) := rfl
  simp only [mpz_val, hs, hd, readFrom_native_all, hsg, limbsVal_toLimbs _ _ (le_refl _),
    Option.some.injEq]
  exact Int.sign_mul_natAbs f

theorem limbsVal_normalize : ∀ ls : List Nat, limbsVal (normalize ls) = limbsVal ls := by
  intro ls
  induction ls with
  | nil => rfl
  | cons l ls ih =>
    simp only [normalize]
    cases hn : normalize ls with
    | nil =>
      rw [hn] at ih
      simp only [limbsVal] at ih
      by_cases h0 : l = 0
      · simp [h0, limbsVal, ← ih]
      · simp [h0, limbsVal, ← ih]
    | cons r rs =>
      rw [hn] at ih
      simp only [limbsVal] at ih ⊢
      rw [← ih]

theorem range_map_getD (ds : List Nat) :
    (List.range ds.length).map (fun k => ds.getD k 0) = ds := by
  apply List.ext_getElem
  · simp
  · intro n h1 h2
    simp [List.getD_eq_getElem?_getD, List.getElem?_eq_getElem h2]

/-! ## Allocation of host integers -/

theorem Extends_refl (h : Heap) : Extends h h := fun _ ho => ⟨ho, rfl⟩

theorem Extends_trans {h1 h2 h3 : Heap} (h12 : Extends h1 h2) (h23 : Extends h2 h3) :
    Extends h1 h3 := by
  intro o ho
  obtain ⟨o2, v2⟩ := h12 o ho
  obtain ⟨o3, v3⟩ := h23 o o2
  exact ⟨o3, v3.trans v2⟩

theorem NewBag_limbs (h : Heap) (t : TNum) (ds : List Nat) :
    bagLimbs (NewBag h t ds).1 h.nbags = ds := by
  simp only [bagLimbs, NewBag, if_true]
  conv_rhs => rw [← range_map_getD ds]
  apply List.map_congr_left
  intro k hk
  have hk2 : k < ds.length := List.mem_range.mp hk
  have h1 : h.top ≤ h.top + k ∧ h.top + k < h.top + ds.length := ⟨by omega, by omega⟩
  simp only [h1, and_self, if_true]
  congr 1
  omega

theorem NewBag_obj (h : Heap) (t : TNum) (ds : List Nat) :
    (NewBag h t ds).2 = .bag h.nbags ∧ (NewBag h t ds).1.tnum h.nbags = t := by
  simp [NewBag]

theorem NewBag_owned (h : Heap) (t : TNum) (ds : List Nat) :
    Owned (NewBag h t ds).1 (NewBag h t ds).2 := by
  simp [NewBag, Owned]

theorem NewBag_extends (h : Heap) (t : TNum) (ds : List Nat) :
    Extends h (NewBag h t ds).1 := by
  intro o ho
  cases o with
  | intobj i => exact ⟨trivial, rfl⟩
  | bag id =>
    obtain ⟨h1, h2⟩ := ho
    have hne : id ≠ h.nbags := by omega
    have hl : bagLimbs (NewBag h t ds).1 id = bagLimbs h id := by
      simp only [bagLimbs, NewBag, hne, if_false]
      apply List.map_congr_left
      intro k hk
      have hk2 : k < h.size id := List.mem_range.mp hk
      have : ¬ (h.top ≤ h.addr id + k ∧ h.addr id + k < h.top + ds.length) := by omega
      simp only [this, if_false]
    refine ⟨?_, ?_⟩
    · simp only [Owned, NewBag, hne, if_false]
      omega
    · simp only [val, hl]
      simp [NewBag, hne]

/-- What `MakeObjInt` returns for a header that denotes `z`: an object that
denotes `z` in a heap that extends the old one; an immediate integer when `z`
fits, a fresh bag with the right tag and magnitude otherwise. -/
theorem MakeObjInt_spec (h : Heap) (scr : Option Nat) (x : mpz) (z : Int)
    (hz : mpz_val h scr x = some z) :
    ∃ h1 y, GMPorINTOBJ_MPZ h scr x = some (h1, y) ∧ val h1 y = z ∧ Owned h1 y ∧
      Extends h h1 ∧
      (INT_INTOBJ_MIN ≤ z ∧ z ≤ INT_INTOBJ_MAX → y = .intobj z ∧ h1 = h) ∧
      (z < INT_INTOBJ_MIN → ∃ id, y = .bag id ∧ h1.tnum id = .T_INTNEG ∧
        limbsVal (bagLimbs h1 id) = z.natAbs) ∧
      (INT_INTOBJ_MAX < z → ∃ id, y = .bag id ∧ h1.tnum id = .T_INTPOS ∧
        limbsVal (bagLimbs h1 id) = z.natAbs) := by
  simp only [mpz_val] at hz
  cases hr : readFrom h scr x._mp_d x._mp_size.natAbs 0 with
  | none => rw [hr] at hz; exact absurd hz (by simp)
  | some ls =>
    rw [hr] at hz
    simp only [Option.some.injEq] at hz
    simp only [GMPorINTOBJ_MPZ, MakeObjInt, hr]
    have hmin : INT_INTOBJ_MIN = -(2 ^ 60) := rfl
    have hmax : INT_INTOBJ_MAX = 2 ^ 60 - 1 := rfl
    by_cases h0 : x._mp_size = 0
    · have hls : ls = [] := by
        rw [h0] at hr
        simp only [Int.natAbs_zero, readFrom, Option.some.injEq] at hr
        exact hr.symm
      have hz0 : z = 0 := by rw [← hz, hls]; simp [limbsVal]
      subst hz0
      simp only [h0, if_true]
      refine ⟨h, .intobj 0, rfl, rfl, trivial, Extends_refl h, fun _ => ⟨rfl, rfl⟩, ?_, ?_⟩
      · intro hlt; rw [hmin] at hlt; omega
      · intro hlt; rw [hmax] at hlt; omega
    · simp only [h0, if_false]
      have hnv := limbsVal_normalize ls
      by_cases hpos : 0 < x._mp_size
      · have hzv : z = (limbsVal (normalize ls) : Int) := by
          rw [← hz, Int.sign_eq_one_of_pos hpos, hnv]; simp
        simp only [hpos, if_true]
        by_cases hfit : (limbsVal (normalize ls) : Int) ≤ INT_INTOBJ_MAX
        · simp only [hfit, if_true]
          refine ⟨h, _, rfl, hzv.symm, trivial, Extends_refl h, fun _ => ⟨by rw [hzv], rfl⟩,
            ?_, ?_⟩
          · intro hlt; rw [hmin] at hlt; omega
          · intro hlt; omega
        · simp only [hfit, if_false]
          obtain ⟨ho, ht⟩ := NewBag_obj h .T_INTPOS (normalize ls)
          have hl := NewBag_limbs h .T_INTPOS (normalize ls)
          have hv : val (NewBag h .T_INTPOS (normalize ls)).1
              (NewBag h .T_INTPOS (normalize ls)).2 = z := by
            rw [ho]
            simp only [val, ht, if_true, hl]
            exact hzv.symm
          refine ⟨_, _, rfl, hv, NewBag_owned _ _ _, NewBag_extends _ _ _, ?_, ?_, ?_⟩
          · intro hh; omega
          · intro hlt; rw [hmin] at hlt; omega
          · intro _
            refine ⟨h.nbags, ho, ht, ?_⟩
            refine Eq.trans (congrArg limbsVal hl) ?_
            rw [hzv]; simp
      · have hneg : x._mp_size < 0 := by omega
        have hzv : z = -(limbsVal (normalize ls) : Int) := by
          rw [← hz, Int.sign_eq_neg_one_of_neg hneg, hnv]; simp
        simp only [hpos, if_false]
        by_cases hfit : -(limbsVal (normalize ls) : Int) ≥ INT_INTOBJ_MIN
        · simp only [hfit, if_true]
          refine ⟨h, _, rfl, hzv.symm, trivial, Extends_refl h, fun _ => ⟨by rw [hzv], rfl⟩,
            ?_, ?_⟩
          · intro hlt; omega
          · intro hlt; rw [hmax] at hlt; omega
        · simp only [hfit, if_false]
          obtain ⟨ho, ht⟩ := NewBag_obj h .T_INTNEG (normalize ls)
          have hl := NewBag_limbs h .T_INTNEG (normalize ls)
          have hv : val (NewBag h .T_INTNEG (normalize ls)).1
              (NewBag h .T_INTNEG (normalize ls)).2 = z := by
            rw [ho]
            simp only [val, ht, hl]
            simp [hzv]
          refine ⟨_, _, rfl, hv, NewBag_owned _ _ _, NewBag_extends _ _ _, ?_, ?_, ?_⟩
          · intro hh; omega
          · intro _
            refine ⟨h.nbags, ho, ht, ?_⟩
            refine Eq.trans (congrArg limbsVal hl) ?_
            rw [hzv]; simp
          · intro hlt; rw [hmax] at hlt; omega

/-! ## Integer round trip -/

/-- C5: for a host integer `x` the resolved view denotes `x`; the native
library stores that value, and converting the value back with
`GMPorINTOBJ_MPZ` gives a host integer equal to `x` (also when the view itself
is converted back).  Zero has `_mp_size = 0` and comes back as the immediate
0; a negative integer below the immediate range comes back as a bag with the
negative tag and the same magnitude. -/
theorem int_roundtrip (h : Heap) (fake : fake_mpz) (x : Obj) (hx : InRange x) :
    mpz_val h (some (MPZ_FAKEMPZ h (FAKEMPZ_GMPorINTOBJ h fake x)).1.tmp)
      (MPZ_FAKEMPZ h (FAKEMPZ_GMPorINTOBJ h fake x)).2 = some (val h x) ∧
    fmpz_set_mpz h (some (MPZ_FAKEMPZ h (FAKEMPZ_GMPorINTOBJ h fake x)).1.tmp)
      (MPZ_FAKEMPZ h (FAKEMPZ_GMPorINTOBJ h fake x)).2 = some (val h x) ∧
    (∃ h1 y, GMPorINTOBJ_MPZ h none (fmpz_get_mpz (val h x)) = some (h1, y) ∧
      val h1 y = val h x ∧
      (val h x = 0 → y = .intobj 0) ∧
      (val h x < INT_INTOBJ_MIN → ∃ id, y = .bag id ∧ h1.tnum id = .T_INTNEG ∧
        limbsVal (bagLimbs h1 id) = (val h x).natAbs)) ∧
    (∃ h1 y, GMPorINTOBJ_MPZ h (some (MPZ_FAKEMPZ h (FAKEMPZ_GMPorINTOBJ h fake x)).1.tmp)
        (MPZ_FAKEMPZ h (FAKEMPZ_GMPorINTOBJ h fake x)).2 = some (h1, y) ∧
      val h1 y = val h x) ∧
    (FAKEMPZ_GMPorINTOBJ h fake (.intobj 0)).v._mp_size = 0 := by
  have hv := view_val h fake x hx
  refine ⟨hv, ?_, ?_, ?_, ?_⟩
  · rw [fmpz_set_mpz_eq_mpz_val]; exact hv
  · obtain ⟨h1, y, hy, hval, -, -, hsmall, hneg, -⟩ :=
      MakeObjInt_spec h none (fmpz_get_mpz (val h x)) (val h x) (fmpz_get_mpz_val h none _)
    refine ⟨h1, y, hy, hval, ?_, hneg⟩
    intro h0
    have := (hsmall (by rw [h0]; decide)).1
    rw [this, h0]
  · obtain ⟨h1, y, hy, hval, -⟩ := MakeObjInt_spec h _ _ (val h x) hv
    exact ⟨h1, y, hy, hval⟩
  · simp [FAKEMPZ_GMPorINTOBJ, IS_INTOBJ, INT_INTOBJ]

/-- C5 (witness): the large negative integer `-(5 + 7 * 2^64)` of `exHeap`. -/
theorem int_roundtrip_witness :
    InRange (.bag 0) ∧
    mpz_val exHeap (some (MPZ_FAKEMPZ exHeap (FAKEMPZ_GMPorINTOBJ exHeap exFake (.bag 0))).1.tmp)
      (MPZ_FAKEMPZ exHeap (FAKEMPZ_GMPorINTOBJ exHeap exFake (.bag 0))).2
        = some (val exHeap (.bag 0)) :=
  ⟨trivial, (int_roundtrip exHeap exFake (.bag 0) trivial).1⟩

/-! ## Population of the native matrix -/

theorem ELM_LIST_succ {α : Type} (l : List α) (i : Nat) : ELM_LIST l (i + 1) = l.get? i := by
  simp [ELM_LIST]

theorem mat_gap2flint_cols_spec (h : Heap) (x : List (List Obj)) (i : Nat) (row : List Obj)
    (hrow : ELM_LIST x (i + 1) = some row) :
    ∀ (k j : Nat) (res : fmpz_mat) (tmp : fake_mpz), j + k ≤ row.length →
      (∀ b, j ≤ b → b < j + k → InRange (row.getD b (.intobj 0))) →
      ∃ s1, mat_gap2flint_cols h x i k j (res, tmp) = some s1 ∧
        ∀ a b, s1.1.entry a b
          = if a = i ∧ j ≤ b ∧ b < j + k then val h (row.getD b (.intobj 0))
            else res.entry a b := by
  intro k
  induction k with
  | zero =>
    intro j res tmp _ _
    refine ⟨(res, tmp), rfl, ?_⟩
    intro a b
    have : ¬ (a = i ∧ j ≤ b ∧ b < j + 0) := by omega
    rw [if_neg this]
  | succ k ih =>
    intro j res tmp hlen hin
    have hj : j < row.length := by omega
    have he : ELM_LIST row (j + 1) = some (row.getD j (.intobj 0)) := by
      rw [ELM_LIST_succ, List.get?_eq_get hj]
      simp [List.getD_eq_getElem?_getD, List.getElem?_eq_getElem hj]
    have hf := view_val h tmp (row.getD j (.intobj 0)) (hin j (le_refl _) (by omega))
    rw [← fmpz_set_mpz_eq_mpz_val] at hf
    rw [mat_gap2flint_cols_succ, hrow, Option.some_bind, he, Option.some_bind, hf,
      Option.some_bind]
    obtain ⟨s1, hs1, hent⟩ := ih (j + 1)
      (fmpz_mat_set res i j (val h (row.getD j (.intobj 0))))
      (UPDATE_FAKEMPZ h (FAKEMPZ_GMPorINTOBJ h tmp (row.getD j (.intobj 0))))
      (by omega) (fun b hb1 hb2 => hin b (by omega) (by omega))
    refine ⟨s1, hs1, ?_⟩
    intro a b
    rw [hent a b]
    simp only [fmpz_mat_set]
    by_cases ha : a = i
    · by_cases hb : b = j
      · subst hb
        have h1 : ¬ (a = i ∧ b + 1 ≤ b ∧ b < b + 1 + k) := by omega
        have h2 : a = i ∧ b ≤ b ∧ b < b + (k + 1) := ⟨ha, le_refl _, by omega⟩
        simp [h1, h2, ha]
      · by_cases hr : j + 1 ≤ b ∧ b < j + 1 + k
        · have h2 : a = i ∧ j ≤ b ∧ b < j + (k + 1) := ⟨ha, by omega, by omega⟩
          simp [ha, hr, h2]
        · have h1 : ¬ (a = i ∧ j + 1 ≤ b ∧ b < j + 1 + k) := fun hh => hr hh.2
          have h2 : ¬ (a = i ∧ j ≤ b ∧ b < j + (k + 1)) := by omega
          simp [h1, h2, hb]
    · have h1 : ¬ (a = i ∧ j + 1 ≤ b ∧ b < j + 1 + k) := fun hh => ha hh.1
      have h2 : ¬ (a = i ∧ j ≤ b ∧ b < j + (k + 1)) := fun hh => ha hh.1
      have h3 : ¬ (a = i ∧ b = j) := fun hh => ha hh.1
      simp [h1, h2, h3]

theorem ELM_LIST_row (x : List (List Obj)) (i : Nat) (hi : i < x.length) :
    ELM_LIST x (i + 1) = some (x.getD i []) := by
  rw [ELM_LIST_succ, List.get?_eq_get hi]
  simp [List.getD_eq_getElem?_getD, List.getElem?_eq_getElem hi]

theorem mat_gap2flint_rows_spec (h : Heap) (x : List (List Obj)) (m : Nat) :
    ∀ (k i : Nat) (res : fmpz_mat) (tmp : fake_mpz), i + k ≤ x.length →
      (∀ a, i ≤ a → a < i + k → m ≤ (x.getD a []).length) →
      (∀ a b, i ≤ a → a < i + k → b < m → InRange (cell x a b)) →
      ∃ s1, mat_gap2flint_rows h x m k i (res, tmp) = some s1 ∧
        ∀ a b, s1.1.entry a b
          = if (i ≤ a ∧ a < i + k) ∧ b < m then val h (cell x a b) else res.entry a b := by
  intro k
  induction k with
  | zero =>
    intro i res tmp _ _ _
    refine ⟨(res, tmp), rfl, ?_⟩
    intro a b
    have : ¬ ((i ≤ a ∧ a < i + 0) ∧ b < m) := by omega
    rw [if_neg this]
  | succ k ih =>
    intro i res tmp hlen hrows hin
    have hi : i < x.length := by omega
    obtain ⟨s1, hs1, hent1⟩ := mat_gap2flint_cols_spec h x i (x.getD i []) (ELM_LIST_row x i hi)
      m 0 res tmp (by have := hrows i (le_refl _) (by omega); omega)
      (fun b _ hb => hin i b (le_refl _) (by omega) (by omega))
    obtain ⟨r1, t1⟩ := s1
    obtain ⟨s2, hs2, hent2⟩ := ih (i + 1) r1 t1 (by omega)
      (fun a ha1 ha2 => hrows a (by omega) (by omega))
      (fun a b ha1 ha2 hb => hin a b (by omega) (by omega) hb)
    rw [mat_gap2flint_rows_succ, hs1, Option.some_bind]
    refine ⟨s2, hs2, ?_⟩
    intro a b
    rw [hent2 a b]
    have hent1ab := hent1 a b
    simp only at hent1ab
    rw [hent1ab]
    by_cases hb : b < m
    · by_cases ha : a = i
      · subst ha
        have h1 : ¬ ((a + 1 ≤ a ∧ a < a + 1 + k) ∧ b < m) := by omega
        have h2 : (a ≤ a ∧ a < a + (k + 1)) ∧ b < m := ⟨⟨le_refl _, by omega⟩, hb⟩
        have h3 : a = a ∧ 0 ≤ b ∧ b < 0 + m := ⟨rfl, by omega, by omega⟩
        rw [if_neg h1, if_pos h3, if_pos h2]
        rfl
      · have h3 : ¬ (a = i ∧ 0 ≤ b ∧ b < 0 + m) := fun hh => ha hh.1
        by_cases hr : i + 1 ≤ a ∧ a < i + 1 + k
        · have h2 : (i ≤ a ∧ a < i + (k + 1)) ∧ b < m := ⟨⟨by omega, by omega⟩, hb⟩
          rw [if_pos ⟨hr, hb⟩, if_pos h2]
        · have h1 : ¬ ((i + 1 ≤ a ∧ a < i + 1 + k) ∧ b < m) := fun hh => hr hh.1
          have h2 : ¬ ((i ≤ a ∧ a < i + (k + 1)) ∧ b < m) := by omega
          rw [if_neg h1, if_neg h3, if_neg h2]
    · have h1 : ¬ ((i + 1 ≤ a ∧ a < i + 1 + k) ∧ b < m) := fun hh => hb hh.2
      have h2 : ¬ ((i ≤ a ∧ a < i + (k + 1)) ∧ b < m) := fun hh => hb hh.2
      have h3 : ¬ (a = i ∧ 0 ≤ b ∧ b < 0 + m) := by omega
      rw [if_neg h1, if_neg h3, if_neg h2]

/-- The matrix `mat_gap2flint` builds when no row is shorter than the first:
shape `n x m`, entry `(i, j)` the value of element `j+1` of row `i+1`. -/
theorem mat_gap2flint_spec (h : Heap) (tmp : fake_mpz) (x : List (List Obj))
    (hrows : ∀ a, a < x.length → firstRowLen x ≤ (x.getD a []).length)
    (hin : ∀ a b, a < x.length → b < firstRowLen x → InRange (cell x a b)) :
    mat_gap2flint h tmp x
      = some { r := x.length, c := firstRowLen x,
               entry := fun a b => if a < x.length ∧ b < firstRowLen x then val h (cell x a b)
                                   else 0 } := by
  obtain ⟨s1, hs1, hent⟩ := mat_gap2flint_rows_spec h x (firstRowLen x) x.length 0
    (fmpz_mat_init x.length (firstRowLen x)) tmp (by omega)
    (fun a _ ha => hrows a (by omega)) (fun a b _ ha hb => hin a b (by omega) hb)
  have hshape := mat_gap2flint_rows_shape h x _ _ _ _ _ hs1
  obtain ⟨r1, t1⟩ := s1
  simp only [mat_gap2flint, mat_gap2flint_shape_eq, hs1, Option.some.injEq]
  obtain ⟨r, c, e⟩ := r1
  simp only [fmpz_mat_init] at hshape hent
  obtain ⟨hr, hc⟩ := hshape
  subst hr hc
  congr 1
  funext a b
  rw [hent a b]
  by_cases hab : a < x.length ∧ b < firstRowLen x
  · have : (0 ≤ a ∧ a < 0 + x.length) ∧ b < firstRowLen x := ⟨⟨by omega, by omega⟩, hab.2⟩
    rw [if_pos this, if_pos hab]
  · have : ¬ ((0 ≤ a ∧ a < 0 + x.length) ∧ b < firstRowLen x) := by omega
    rw [if_neg this, if_neg hab]

theorem RowHolds_extends {h h1 : Heap} (he : Extends h h1) {e : Nat → Int} {m : Nat}
    {row : PList Obj} (hr : RowHolds h e m row) : RowHolds h1 e m row := by
  refine ⟨hr.1, ?_⟩
  intro b hb
  obtain ⟨o, ho, hown, hval⟩ := hr.2 b hb
  obtain ⟨hown1, hval1⟩ := he o hown
  exact ⟨o, ho, hown1, hval1.trans hval⟩

theorem mat_flint2gap_cols_succ (x : fmpz_mat) (i k j : Nat) (h : Heap) (row : PList Obj) :
    mat_flint2gap_cols x i (k + 1) j (h, row)
      = (GMPorINTOBJ_MPZ h none (fmpz_get_mpz (x.entry (i - 1) (j - 1)))).bind (fun r =>
          mat_flint2gap_cols x i k (j + 1) (r.1, SET_ELM_PLIST row j r.2)) := by
  simp only [mat_flint2gap_cols]
  cases GMPorINTOBJ_MPZ h none (fmpz_get_mpz (x.entry (i - 1) (j - 1))) <;> rfl

theorem mat_flint2gap_rows_succ (x : fmpz_mat) (m k i : Nat) (h : Heap)
    (res : PList (PList Obj)) :
    mat_flint2gap_rows x m (k + 1) i (h, res)
      = (mat_flint2gap_cols x i m 1 (h, NEW_PLIST Obj m)).bind (fun r =>
          mat_flint2gap_rows x m k (i + 1) (r.1, SET_ELM_PLIST res i r.2)) := by
  simp only [mat_flint2gap_rows]
  cases mat_flint2gap_cols x i m 1 (h, NEW_PLIST Obj m) <;> rfl

theorem mat_flint2gap_cols_spec (x : fmpz_mat) (i : Nat) :
    ∀ (k j0 : Nat) (h : Heap) (row : PList Obj), j0 + k ≤ row.length →
      ∃ h1 row1, mat_flint2gap_cols x i k (j0 + 1) (h, row) = some (h1, row1) ∧
        Extends h h1 ∧ row1.length = row.length ∧
        (∀ b, j0 ≤ b → b < j0 + k →
          ∃ o, row1.get? b = some (some o) ∧ Owned h1 o ∧ val h1 o = x.entry (i - 1) b) ∧
        (∀ b, b < j0 → row1.get? b = row.get? b) := by
  intro k
  induction k with
  | zero =>
    intro j0 h row _
    exact ⟨h, row, rfl, Extends_refl h, rfl, fun b h1 h2 => by omega, fun _ _ => rfl⟩
  | succ k ih =>
    intro j0 h row hlen
    obtain ⟨h1, o, ho, hval, hown, hext, -⟩ :=
      MakeObjInt_spec h none (fmpz_get_mpz (x.entry (i - 1) j0)) (x.entry (i - 1) j0)
        (fmpz_get_mpz_val h none _)
    have hlen2 : j0 + 1 + k ≤ (SET_ELM_PLIST row (j0 + 1) o).length := by
      simp only [SET_ELM_PLIST, Nat.add_one_ne_zero, if_false, List.length_set]
      omega
    obtain ⟨h2, row2, hr2, hext2, hl2, hfill, hkeep⟩ :=
      ih (j0 + 1) h1 (SET_ELM_PLIST row (j0 + 1) o) hlen2
    rw [mat_flint2gap_cols_succ, Nat.add_sub_cancel, ho, Option.some_bind]
    refine ⟨h2, row2, hr2, Extends_trans hext hext2, ?_, ?_, ?_⟩
    · rw [hl2]; simp [SET_ELM_PLIST]
    · intro b hb1 hb2
      by_cases hb : b = j0
      · subst hb
        have hk := hkeep b (by omega)
        have hset : (SET_ELM_PLIST row (b + 1) o).get? b = some (some o) := by
          have : b < row.length := by omega
          simp [SET_ELM_PLIST, this]
        obtain ⟨hown2, hval2⟩ := hext2 o hown
        exact ⟨o, hk.trans hset, hown2, hval2.trans hval⟩
      · exact hfill b (by omega) (by omega)
    · intro b hb
      rw [hkeep b (by omega)]
      have : j0 ≠ b := by omega
      simp [SET_ELM_PLIST, List.getElem?_set_ne this]

theorem mat_flint2gap_rows_spec (x : fmpz_mat) (m : Nat) :
    ∀ (k i0 : Nat) (h : Heap) (res : PList (PList Obj)), i0 + k ≤ res.length →
      ∃ h1 res1, mat_flint2gap_rows x m k (i0 + 1) (h, res) = some (h1, res1) ∧
        Extends h h1 ∧ res1.length = res.length ∧
        (∀ a, i0 ≤ a → a < i0 + k →
          ∃ row, res1.get? a = some (some row) ∧ RowHolds h1 (x.entry a) m row) ∧
        (∀ a, a < i0 → res1.get? a = res.get? a) := by
  intro k
  induction k with
  | zero =>
    intro i0 h res _
    exact ⟨h, res, rfl, Extends_refl h, rfl, fun b h1 h2 => by omega, fun _ _ => rfl⟩
  | succ k ih =>
    intro i0 h res hlen
    obtain ⟨h1, row1, hr1, hext1, hl1, hfill1, -⟩ :=
      mat_flint2gap_cols_spec x (i0 + 1) m 0 h (NEW_PLIST Obj m)
        (by simp [NEW_PLIST])
    have hrow : RowHolds h1 (x.entry i0) m row1 := by
      refine ⟨by rw [hl1]; simp [NEW_PLIST], ?_⟩
      intro b hb
      have := hfill1 b (by omega) (by omega)
      simpa using this
    have hlen2 : i0 + 1 + k ≤ (SET_ELM_PLIST res (i0 + 1) row1).length := by
      simp only [SET_ELM_PLIST, Nat.add_one_ne_zero, if_false, List.length_set]
      omega
    obtain ⟨h2, res2, hr2, hext2, hl2, hfill, hkeep⟩ :=
      ih (i0 + 1) h1 (SET_ELM_PLIST res (i0 + 1) row1) hlen2
    rw [mat_flint2gap_rows_succ, hr1, Option.some_bind]
    refine ⟨h2, res2, hr2, Extends_trans hext1 hext2, ?_, ?_, ?_⟩
    · rw [hl2]; simp [SET_ELM_PLIST]
    · intro a ha1 ha2
      by_cases ha : a = i0
      · subst ha
        have hk := hkeep a (by omega)
        have hset : (SET_ELM_PLIST res (a + 1) row1).get? a = some (some row1) := by
          have : a < res.length := by omega
          simp [SET_ELM_PLIST, this]
        exact ⟨row1, hk.trans hset, RowHolds_extends hext2 hrow⟩
      · exact hfill a (by omega) (by omega)
    · intro a ha
      rw [hkeep a (by omega)]
      have : i0 ≠ a := by omega
      simp [SET_ELM_PLIST, List.getElem?_set_ne this]

/-- The host matrix `mat_flint2gap` builds: always returned, as many rows and
columns as the native matrix, each slot an owned integer object that denotes
the native entry; objects of the old heap keep their values. -/
theorem mat_flint2gap_spec (h : Heap) (x : fmpz_mat) :
    ∃ h1 B, mat_flint2gap h x = some (h1, B) ∧ Extends h h1 ∧
      MatHolds h1 x.entry x.r x.c B := by
  obtain ⟨h1, B, hB, hext, hl, hfill, -⟩ :=
    mat_flint2gap_rows_spec x x.c x.r 0 h (NEW_PLIST (PList Obj) x.r) (by simp [NEW_PLIST])
  refine ⟨h1, B, hB, hext, ?_, ?_⟩
  · rw [hl]; simp [NEW_PLIST]
  · intro a ha
    exact hfill a (by omega) (by omega)

theorem MatHolds_extends {h h1 : Heap} (he : Extends h h1) {E : Nat → Nat → Int} {n m : Nat}
    {res : PList (PList Obj)} (hr : MatHolds h E n m res) : MatHolds h1 E n m res := by
  refine ⟨hr.1, ?_⟩
  intro a ha
  obtain ⟨row, hrow, hh⟩ := hr.2 a ha
  exact ⟨row, hrow, RowHolds_extends he hh⟩

/-! ## Round trip -/

/-- What `FuncLLLReducedGramMatFLINT` returns on a well-formed input: the
two windows over what the reduction routine leaves behind, converted to host
matrices. -/
theorem FuncLLLReducedGramMatFLINT_spec
    (fmpz_lll : fmpz_lll_t → fmpz_mat → fmpz_mat → fmpz_mat × fmpz_mat)
    (fl0 : fmpz_lll_t) (h : Heap) (tmp : fake_mpz) (gram : List (List Obj)) (delta : Float)
    (hwf : WellFormed gram) :
    ∃ h2 res, FuncLLLReducedGramMatFLINT fmpz_lll fl0 h tmp gram delta = some (h2, res) ∧
      MatHolds h2
        (fun a b => (reduced fmpz_lll fl0 h gram delta).1.entry
          (leadingZeroRows (reduced fmpz_lll fl0 h gram delta).1 + a)
          (leadingZeroRows (reduced fmpz_lll fl0 h gram delta).1 + b))
        ((reduced fmpz_lll fl0 h gram delta).1.r
          - leadingZeroRows (reduced fmpz_lll fl0 h gram delta).1)
        ((reduced fmpz_lll fl0 h gram delta).1.c
          - leadingZeroRows (reduced fmpz_lll fl0 h gram delta).1)
        res.remainder ∧
      MatHolds h2
        (fun a b => (reduced fmpz_lll fl0 h gram delta).2.entry
          ((reduced fmpz_lll fl0 h gram delta).1.r
            - ((reduced fmpz_lll fl0 h gram delta).1.r
                - leadingZeroRows (reduced fmpz_lll fl0 h gram delta).1) + a) (0 + b))
        ((reduced fmpz_lll fl0 h gram delta).1.r
          - ((reduced fmpz_lll fl0 h gram delta).1.r
              - ((reduced fmpz_lll fl0 h gram delta).1.r
                  - leadingZeroRows (reduced fmpz_lll fl0 h gram delta).1)))
        ((reduced fmpz_lll fl0 h gram delta).1.r - 0)
        res.transformation := by
  have hM := mat_gap2flint_spec h tmp gram hwf.1 (fun a b ha hb => hwf.2 a ha b hb)
  obtain ⟨h1, rem, hrem, -, hremH⟩ := mat_flint2gap_spec h
    (_fmpz_mat_read_only_window_init_strip_initial_zero_rows_and_corresponding_cols
      (reduced fmpz_lll fl0 h gram delta).1)
  obtain ⟨h2, tr, htr, hext, htrH⟩ := mat_flint2gap_spec h1
    (fmpz_mat_window_init (reduced fmpz_lll fl0 h gram delta).2
      ((reduced fmpz_lll fl0 h gram delta).1.r
        - (_fmpz_mat_read_only_window_init_strip_initial_zero_rows_and_corresponding_cols
            (reduced fmpz_lll fl0 h gram delta).1).r) 0
      (reduced fmpz_lll fl0 h gram delta).1.r (reduced fmpz_lll fl0 h gram delta).1.r)
  refine ⟨h2, ⟨rem, tr⟩, ?_, MatHolds_extends hext hremH, htrH⟩
  simp only [FuncLLLReducedGramMatFLINT, hM]
  simp only [reduced, gramMat] at hrem htr
  rw [hrem]
  simp only []
  rw [htr]

theorem zeroRowsFrom_spec (B : fmpz_mat) :
    ∀ k i, i ≤ zeroRowsFrom B k i ∧ zeroRowsFrom B k i ≤ i + k ∧
      (∀ a, i ≤ a → a < zeroRowsFrom B k i → rowIsZero B a = true) ∧
      (zeroRowsFrom B k i < i + k → rowIsZero B (zeroRowsFrom B k i) = false) := by
  intro k
  induction k with
  | zero =>
    intro i
    simp only [zeroRowsFrom]
    exact ⟨le_refl _, le_refl _, fun a h1 h2 => by omega, fun hh => by omega⟩
  | succ k ih =>
    intro i
    simp only [zeroRowsFrom]
    by_cases hz : rowIsZero B i = true
    · simp only [hz, if_true]
      obtain ⟨h1, h2, h3, h4⟩ := ih (i + 1)
      refine ⟨by omega, by omega, ?_, fun hh => h4 (by omega)⟩
      intro a ha1 ha2
      by_cases hai : a = i
      · rw [hai]; exact hz
      · exact h3 a (by omega) ha2
    · have hz2 : rowIsZero B i = false := by simpa using hz
      simp only [hz2, Bool.false_eq_true, if_false]
      exact ⟨le_refl _, by omega, fun a h1 h2 => by omega, fun _ => trivial⟩

theorem leadingZeroRows_spec (B : fmpz_mat) :
    leadingZeroRows B ≤ B.r ∧
    (∀ a, a < leadingZeroRows B → rowIsZero B a = true) ∧
    (leadingZeroRows B < B.r → rowIsZero B (leadingZeroRows B) = false) := by
  obtain ⟨-, h2, h3, h4⟩ := zeroRowsFrom_spec B B.r 0
  refine ⟨by simpa [leadingZeroRows] using h2, fun a ha => h3 a (by omega) ha, ?_⟩
  intro hh
  exact h4 (by simpa [leadingZeroRows] using hh)

theorem leadingZeroRows_all (B : fmpz_mat) (hall : ∀ a, a < B.r → rowIsZero B a = true) :
    leadingZeroRows B = B.r := by
  obtain ⟨h1, -, h3⟩ := leadingZeroRows_spec B
  by_contra hne
  have hlt : leadingZeroRows B < B.r := by omega
  have := hall _ hlt
  rw [h3 hlt] at this
  exact absurd this (by simp)

theorem leadingZeroRows_zero (B : fmpz_mat) (h0 : rowIsZero B 0 = false) :
    leadingZeroRows B = 0 := by
  obtain ⟨-, h2, -⟩ := leadingZeroRows_spec B
  by_contra hne
  have := h2 0 (by omega)
  rw [h0] at this
  exact absurd this (by simp)

theorem firstRowLen_eq (A : List (List Obj)) : firstRowLen A = (A.getD 0 []).length := by
  cases A <;> rfl

theorem WellFormed_of_square (gram : List (List Obj))
    (hsq : ∀ a, a < gram.length → (gram.getD a []).length = gram.length)
    (hin : ∀ a, a < gram.length → ∀ b, b < gram.length → InRange (cell gram a b)) :
    firstRowLen gram = gram.length ∧ WellFormed gram := by
  have hf : firstRowLen gram = gram.length := by
    rw [firstRowLen_eq]
    by_cases h0 : 0 < gram.length
    · exact hsq 0 h0
    · have : gram = [] := List.length_eq_zero.mp (by omega)
      subst this
      rfl
  refine ⟨hf, ?_, ?_⟩
  · intro a ha
    rw [hf, hsq a ha]
  · intro a ha b hb
    rw [hf] at hb
    exact hin a ha b hb

/-- C2: for an `n x n` input and any reduced matrix `M` of shape `n x n` left
by the reduction routine, `FuncLLLReducedGramMatFLINT` returns a record whose
`remainder` is `k x k` and whose `transformation` is `k x n`, with `k = n - z`
and `z <= n` the number of leading all-zero rows of `M`; when `M` is entirely
zero both are empty. -/
theorem FuncLLLReducedGramMatFLINT_shapes
    (fmpz_lll : fmpz_lll_t → fmpz_mat → fmpz_mat → fmpz_mat × fmpz_mat)
    (fl0 : fmpz_lll_t) (h : Heap) (tmp : fake_mpz) (gram : List (List Obj)) (delta : Float)
    (hsq : ∀ a, a < gram.length → (gram.getD a []).length = gram.length)
    (hin : ∀ a, a < gram.length → ∀ b, b < gram.length → InRange (cell gram a b))
    (hMr : (reduced fmpz_lll fl0 h gram delta).1.r = gram.length)
    (hMc : (reduced fmpz_lll fl0 h gram delta).1.c = gram.length) :
    ∃ h2 res, FuncLLLReducedGramMatFLINT fmpz_lll fl0 h tmp gram delta = some (h2, res) ∧
      leadingZeroRows (reduced fmpz_lll fl0 h gram delta).1 ≤ gram.length ∧
      (∀ a, a < leadingZeroRows (reduced fmpz_lll fl0 h gram delta).1 →
        rowIsZero (reduced fmpz_lll fl0 h gram delta).1 a = true) ∧
      (leadingZeroRows (reduced fmpz_lll fl0 h gram delta).1 < gram.length →
        rowIsZero (reduced fmpz_lll fl0 h gram delta).1
          (leadingZeroRows (reduced fmpz_lll fl0 h gram delta).1) = false) ∧
      res.remainder.length
        = gram.length - leadingZeroRows (reduced fmpz_lll fl0 h gram delta).1 ∧
      (∀ i, i < gram.length - leadingZeroRows (reduced fmpz_lll fl0 h gram delta).1 →
        ∃ row, res.remainder.get? i = some (some row) ∧
          row.length = gram.length - leadingZeroRows (reduced fmpz_lll fl0 h gram delta).1) ∧
      res.transformation.length
        = gram.length - leadingZeroRows (reduced fmpz_lll fl0 h gram delta).1 ∧
      (∀ i, i < gram.length - leadingZeroRows (reduced fmpz_lll fl0 h gram delta).1 →
        ∃ row, res.transformation.get? i = some (some row) ∧ row.length = gram.length) ∧
      ((∀ a, a < gram.length → rowIsZero (reduced fmpz_lll fl0 h gram delta).1 a = true) →
        res.remainder = [] ∧ res.transformation = []) := by
  obtain ⟨-, hwf⟩ := WellFormed_of_square gram hsq hin
  obtain ⟨h2, res, hres, ⟨hrl, hrrows⟩, ⟨htl, htrows⟩⟩ :=
    FuncLLLReducedGramMatFLINT_spec fmpz_lll fl0 h tmp gram delta hwf
  obtain ⟨hz1, hz2, hz3⟩ := leadingZeroRows_spec (reduced fmpz_lll fl0 h gram delta).1
  rw [hMr] at hz1 hz3 hrl htl hrrows htrows
  rw [hMc] at hrrows
  have hk : gram.length - (gram.length
      - (gram.length - leadingZeroRows (reduced fmpz_lll fl0 h gram delta).1))
      = gram.length - leadingZeroRows (reduced fmpz_lll fl0 h gram delta).1 := by omega
  rw [hk] at htl htrows
  refine ⟨h2, res, hres, hz1, hz2, hz3, hrl, ?_, htl, ?_, ?_⟩
  · intro i hi
    obtain ⟨row, hrow, hlen, -⟩ := hrrows i hi
    exact ⟨row, hrow, hlen⟩
  · intro i hi
    obtain ⟨row, hrow, hlen, -⟩ := htrows i hi
    exact ⟨row, hrow, by rw [hlen]; omega⟩
  · intro hall
    have hz := leadingZeroRows_all (reduced fmpz_lll fl0 h gram delta).1
      (by rw [hMr]; exact hall)
    rw [hMr] at hz
    rw [hz, Nat.sub_self] at hrl htl
    exact ⟨List.length_eq_zero.mp hrl, List.length_eq_zero.mp htl⟩

/-- C2 (witness): the 2x2 all-zero Gram matrix, left zero by the reduction,
gives an empty `remainder` and an empty `transformation`. -/
theorem FuncLLLReducedGramMatFLINT_shapes_witness :
    ∃ h2 res, FuncLLLReducedGramMatFLINT exLLL exFl0 exHeap exFake exZero 0.99 = some (h2, res) ∧
      leadingZeroRows (reduced exLLL exFl0 exHeap exZero 0.99).1 = 2 ∧
      res.remainder = [] ∧ res.transformation = [] := by
  obtain ⟨h2, res, hf, -, -, -, -, -, -, -, hz⟩ :=
    FuncLLLReducedGramMatFLINT_shapes exLLL exFl0 exHeap exFake exZero 0.99
      (by decide) (by decide) rfl rfl
  have hall : ∀ a, a < exZero.length →
      rowIsZero (reduced exLLL exFl0 exHeap exZero 0.99).1 a = true := by decide
  exact ⟨h2, res, hf, leadingZeroRows_all _ hall, hz hall⟩

/-- C3: when the reduction routine leaves the `n x n` matrix `A` and the
identity as they are and the first row of `A` is not all zero, no row is
stripped: `remainder` is `A` entry for entry and `transformation` is the
`n x n` identity. -/
theorem FuncLLLReducedGramMatFLINT_identity
    (fmpz_lll : fmpz_lll_t → fmpz_mat → fmpz_mat → fmpz_mat × fmpz_mat)
    (fl0 : fmpz_lll_t) (h : Heap) (tmp : fake_mpz) (gram : List (List Obj)) (delta : Float)
    (hsq : ∀ a, a < gram.length → (gram.getD a []).length = gram.length)
    (hin : ∀ a, a < gram.length → ∀ b, b < gram.length → InRange (cell gram a b))
    (hfix : reduced fmpz_lll fl0 h gram delta
      = (gramMat h gram, fmpz_mat_one (fmpz_mat_init gram.length gram.length)))
    (hrow : rowIsZero (gramMat h gram) 0 = false) :
    ∃ h2 res, FuncLLLReducedGramMatFLINT fmpz_lll fl0 h tmp gram delta = some (h2, res) ∧
      leadingZeroRows (reduced fmpz_lll fl0 h gram delta).1 = 0 ∧
      res.remainder.length = gram.length ∧
      res.transformation.length = gram.length ∧
      ∀ i, i < gram.length →
        (∃ row, res.remainder.get? i = some (some row) ∧ row.length = gram.length ∧
          ∀ j, j < gram.length →
            ∃ o, row.get? j = some (some o) ∧ val h2 o = val h (cell gram i j)) ∧
        (∃ row, res.transformation.get? i = some (some row) ∧ row.length = gram.length ∧
          ∀ j, j < gram.length →
            ∃ o, row.get? j = some (some o) ∧ val h2 o = if i = j then 1 else 0) := by
  obtain ⟨hf, hwf⟩ := WellFormed_of_square gram hsq hin
  obtain ⟨h2, res, hres, ⟨hrl, hrrows⟩, ⟨htl, htrows⟩⟩ :=
    FuncLLLReducedGramMatFLINT_spec fmpz_lll fl0 h tmp gram delta hwf
  have hz : leadingZeroRows (reduced fmpz_lll fl0 h gram delta).1 = 0 := by
    rw [hfix]; exact leadingZeroRows_zero _ hrow
  have hr : (reduced fmpz_lll fl0 h gram delta).1.r = gram.length := by rw [hfix]; rfl
  have hc : (reduced fmpz_lll fl0 h gram delta).1.c = gram.length := by rw [hfix]; exact hf
  rw [hz, hr] at hrl htl hrrows htrows
  rw [hc] at hrrows
  simp only [Nat.sub_zero, Nat.sub_self, Nat.zero_add] at hrl htl hrrows htrows
  refine ⟨h2, res, hres, hz, hrl, htl, ?_⟩
  intro i hi
  obtain ⟨row, hrow, hlen, hcells⟩ := hrrows i hi
  obtain ⟨trow, htrow, htlen, htcells⟩ := htrows i hi
  refine ⟨⟨row, hrow, hlen, ?_⟩, ⟨trow, htrow, htlen, ?_⟩⟩
  · intro j hj
    obtain ⟨o, ho, -, hval⟩ := hcells j hj
    refine ⟨o, ho, ?_⟩
    rw [hval, hfix]
    simp only [gramMat]
    rw [if_pos ⟨hi, by rw [hf]; exact hj⟩]
  · intro j hj
    obtain ⟨o, ho, -, hval⟩ := htcells j hj
    refine ⟨o, ho, ?_⟩
    rw [hval, hfix]
    rfl

/-- C3 (witness): the Gram matrix `[[2,1],[1,2]]` with delta 0.99 keeps both
rows. -/
theorem FuncLLLReducedGramMatFLINT_identity_witness :
    ∃ h2 res, FuncLLLReducedGramMatFLINT exLLL exFl0 exHeap exFake exGram 0.99 = some (h2, res) ∧
      leadingZeroRows (reduced exLLL exFl0 exHeap exGram 0.99).1 = 0 ∧
      res.remainder.length = 2 ∧ res.transformation.length = 2 := by
  obtain ⟨h2, res, hf, hz, hr, ht, -⟩ :=
    FuncLLLReducedGramMatFLINT_identity exLLL exFl0 exHeap exFake exGram 0.99
      (by decide) (by decide) rfl (by decide)
  exact ⟨h2, res, hf, hz, hr, ht⟩

/-- C6: with `n` the row count of the reduced matrix `M` and `k` the row count
of the stripped window, `transformation` has `k` rows of length `n` and its
entry `(i, j)` is `T[n-k+i][j]`: the last `k` rows of `T`, all columns, the row
indices `n-k+i` that also survive in `remainder`. -/
theorem FuncLLLReducedGramMatFLINT_transformation_window
    (fmpz_lll : fmpz_lll_t → fmpz_mat → fmpz_mat → fmpz_mat × fmpz_mat)
    (fl0 : fmpz_lll_t) (h : Heap) (tmp : fake_mpz) (gram : List (List Obj)) (delta : Float)
    (hwf : WellFormed gram) :
    ∃ h2 res, FuncLLLReducedGramMatFLINT fmpz_lll fl0 h tmp gram delta = some (h2, res) ∧
      (_fmpz_mat_read_only_window_init_strip_initial_zero_rows_and_corresponding_cols
        (reduced fmpz_lll fl0 h gram delta).1).r ≤ (reduced fmpz_lll fl0 h gram delta).1.r ∧
      res.remainder.length = (_fmpz_mat_read_only_window_init_strip_initial_zero_rows_and_corresponding_cols
        (reduced fmpz_lll fl0 h gram delta).1).r ∧
      res.transformation.length = (_fmpz_mat_read_only_window_init_strip_initial_zero_rows_and_corresponding_cols
        (reduced fmpz_lll fl0 h gram delta).1).r ∧
      (∀ i, i < (_fmpz_mat_read_only_window_init_strip_initial_zero_rows_and_corresponding_cols
            (reduced fmpz_lll fl0 h gram delta).1).r →
        ∃ row, res.transformation.get? i = some (some row) ∧
          row.length = (reduced fmpz_lll fl0 h gram delta).1.r ∧
          ∀ j, j < (reduced fmpz_lll fl0 h gram delta).1.r →
            ∃ o, row.get? j = some (some o) ∧
              val h2 o = (reduced fmpz_lll fl0 h gram delta).2.entry
                ((reduced fmpz_lll fl0 h gram delta).1.r
                  - (_fmpz_mat_read_only_window_init_strip_initial_zero_rows_and_corresponding_cols
                      (reduced fmpz_lll fl0 h gram delta).1).r + i) j) ∧
      (∀ i, i < (_fmpz_mat_read_only_window_init_strip_initial_zero_rows_and_corresponding_cols
            (reduced fmpz_lll fl0 h gram delta).1).r →
        ∃ row, res.remainder.get? i = some (some row) ∧
          ∀ j, j < (_fmpz_mat_read_only_window_init_strip_initial_zero_rows_and_corresponding_cols
              (reduced fmpz_lll fl0 h gram delta).1).c →
            ∃ o, row.get? j = some (some o) ∧
              val h2 o = (reduced fmpz_lll fl0 h gram delta).1.entry
                ((reduced fmpz_lll fl0 h gram delta).1.r
                  - (_fmpz_mat_read_only_window_init_strip_initial_zero_rows_and_corresponding_cols
                      (reduced fmpz_lll fl0 h gram delta).1).r + i)
                ((reduced fmpz_lll fl0 h gram delta).1.r
                  - (_fmpz_mat_read_only_window_init_strip_initial_zero_rows_and_corresponding_cols
                      (reduced fmpz_lll fl0 h gram delta).1).r + j)) := by
  obtain ⟨h2, res, hres, ⟨hrl, hrrows⟩, ⟨htl, htrows⟩⟩ :=
    FuncLLLReducedGramMatFLINT_spec fmpz_lll fl0 h tmp gram delta hwf
  obtain ⟨hz1, -, -⟩ := leadingZeroRows_spec (reduced fmpz_lll fl0 h gram delta).1
  simp only [_fmpz_mat_read_only_window_init_strip_initial_zero_rows_and_corresponding_cols]
  have hk : (reduced fmpz_lll fl0 h gram delta).1.r - ((reduced fmpz_lll fl0 h gram delta).1.r
      - ((reduced fmpz_lll fl0 h gram delta).1.r
          - leadingZeroRows (reduced fmpz_lll fl0 h gram delta).1))
      = (reduced fmpz_lll fl0 h gram delta).1.r
          - leadingZeroRows (reduced fmpz_lll fl0 h gram delta).1 := by omega
  have hzz : (reduced fmpz_lll fl0 h gram delta).1.r
      - ((reduced fmpz_lll fl0 h gram delta).1.r
          - leadingZeroRows (reduced fmpz_lll fl0 h gram delta).1)
      = leadingZeroRows (reduced fmpz_lll fl0 h gram delta).1 := by omega
  rw [hk] at htl htrows
  rw [hzz] at htrows
  rw [hzz]
  refine ⟨h2, res, hres, Nat.sub_le _ _, hrl, htl, ?_, ?_⟩
  · intro i hi
    obtain ⟨row, hrow, hlen, hcells⟩ := htrows i hi
    refine ⟨row, hrow, by rw [hlen]; omega, ?_⟩
    intro j hj
    obtain ⟨o, ho, -, hval⟩ := hcells j (by omega)
    refine ⟨o, ho, ?_⟩
    rw [hval]
    simp only [Nat.zero_add]
  · intro i hi
    obtain ⟨row, hrow, -, hcells⟩ := hrrows i hi
    refine ⟨row, hrow, ?_⟩
    intro j hj
    obtain ⟨o, ho, -, hval⟩ := hcells j hj
    exact ⟨o, ho, hval⟩

/-- C6 (witness): a Gram matrix with one leading zero row; one row of the
identity survives. -/
theorem FuncLLLReducedGramMatFLINT_transformation_window_witness :
    WellFormed exDegenerate ∧
    ∃ h2 res,
      FuncLLLReducedGramMatFLINT exLLL exFl0 exHeap exFake exDegenerate 0.99 = some (h2, res) ∧
      res.remainder.length = 1 ∧ res.transformation.length = 1 := by
  refine ⟨by decide, ?_⟩
  obtain ⟨h2, res, hf, -, hr, ht, -⟩ :=
    FuncLLLReducedGramMatFLINT_transformation_window exLLL exFl0 exHeap exFake exDegenerate 0.99
      (by decide)
  have hk : (_fmpz_mat_read_only_window_init_strip_initial_zero_rows_and_corresponding_cols
      (reduced exLLL exFl0 exHeap exDegenerate 0.99).1).r = 1 := by decide
  exact ⟨h2, res, hf, hr.trans hk, ht.trans hk⟩

end LLL
